import Mathlib

/-!
# Device-authorization client and its neighbours

A shallow embedding of the OAuth 2.0 device-flow client of
`go-cli/internal/auth/client.go` (`RequestDeviceCode`, `requestToken` and the
polling loop `PollForToken`, namespace `Auth`), of the parts of the command
`login` around it (namespace `Cmd`), of `Audience.UnmarshalJSON` of the JWT
middleware and its handler `JWTAuth` (namespace `GoService`), of the token
middleware `Auth` of the template `minimal` (namespace `Minimal`), of
`ClearTokens` of the keyring (namespace `Config`) and of the paste service and
handler of the template `ent-atlas` (namespace `EntAtlas`), followed by
theorems about them.

Conventions of the embedding.

* A Go `(*T, error)` result is a pair `Option T × Option GoError`; `none` is `nil`.
* Go `int` and `time.Duration` are `Int`, with `wrap64` applied wherever the
  source does 64-bit arithmetic.
* The standard library is not part of the repository.  What `net/http` hands
  back for one request is an `Exchange`; the JSON text of a body comes with
  the syntax tree the `encoding/json` scanner builds from it (`Json`), and the
  way `encoding/json` stores such a tree into a Go struct is written out in
  `unmarshalStruct`.
* The `select` of `PollForToken` is driven by a list of `Event`s: which of the
  two channels delivered, in order.
-/

namespace Auth

/-! ## Values of the standard library -/

/-- JSON syntax tree of a body, as the `encoding/json` scanner sees it.  A
number literal is kept as `int n` when it has neither fraction nor exponent
(the literals `strconv.ParseInt` accepts) and as `real text` otherwise. -/
inductive Json where
  | null
  | bool (b : Bool)
  | int (n : Int)
  | real (text : String)
  | str (s : String)
  | arr (items : List Json)
  | obj (members : List (String × Json))

/-- Errors of package `context`: what `ctx.Err()` returns once `ctx.Done()` is closed. -/
inductive CtxErr where
  | canceled
  | deadlineExceeded
deriving DecidableEq, Repr

/-- DeviceFlowError represents an error in the device flow. -/
structure DeviceFlowError where
  Code : String
  Description : String
deriving DecidableEq, Repr

/-- Go `error` values that reach the client.  `external` is an error value made
by `net/http`, `io` or `encoding/json` (only its message is kept), `errorf` one
made by `fmt.Errorf`, `deviceFlow` a `*DeviceFlowError`, `ctx` an error of
package `context`. -/
inductive GoError where
  | external (msg : String)
  | errorf (msg : String)
  | deviceFlow (e : DeviceFlowError)
  | ctx (e : CtxErr)
deriving DecidableEq, Repr

/-- Method `Error` of `*DeviceFlowError`. -/
def DeviceFlowError.Error (e : DeviceFlowError) : String :=
  if e.Description ≠ "" then e.Code ++ ": " ++ e.Description else e.Code

/-- Message of a Go error (its `Error()` method). -/
def GoError.Error : GoError → String
  | .external msg => msg
  | .errorf msg => msg
  | .deviceFlow e => e.Error
  | .ctx .canceled => "context canceled"
  | .ctx .deadlineExceeded => "context deadline exceeded"

/-- The type assertion `err.(*DeviceFlowError)`. -/
def GoError.asDeviceFlowError : GoError → Option DeviceFlowError
  | .deviceFlow e => some e
  | _ => none

/-- An HTTP response as the client reads it: status code, the bytes of the body,
and what the `encoding/json` scanner makes of those bytes in the call that
reads them, `json.Unmarshal` or `Decoder.Decode`: the syntax tree of the JSON
text, or `.error msg` when the scanner (or the reading of the body) fails. -/
structure HTTPResponse where
  status : Nat
  raw : String
  json : Except String Json

/-- Outcome of building and sending one request and reading the answer:
`failed msg` when `http.NewRequestWithContext`, `httpClient.Do` or `io.ReadAll`
returned an error (an error value of the library, with message `msg`), else
the response. -/
inductive Exchange where
  | failed (msg : String)
  | response (r : HTTPResponse)

deriving instance DecidableEq for Except

/-! ## `encoding/json`: storing a syntax tree into a struct -/

/-- Case folding of one character of a member name.  `encoding/json` compares
member names with field names under the simple case folding of Unicode.  The
characters that fold together with an ASCII character are the ASCII letter of
the other case and, for `s` and `k`, the long s (U+017F) and the Kelvin sign
(U+212A); every other character is left as it is here, so that two names are
told apart or not exactly as by `encoding/json` whenever one of them is made of
ASCII characters, as all the tags of the structs are. -/
def foldChar (c : Char) : Char :=
  if c = Char.ofNat 0x17F then 's'
  else if c = Char.ofNat 0x212A then 'k'
  else c.toLower

/-- Case folding of a member name, character by character. -/
def foldName (s : String) : List Char := s.toList.map foldChar

/-- A struct field tagged `name` takes the member `key`: exact match first,
else a case-insensitive one. -/
def keyMatches (name key : String) : Bool :=
  key == name || foldName key == foldName name

/-- Kind of a JSON value, as `UnmarshalTypeError` names it. -/
def Json.kind : Json → String
  | .null => "null"
  | .bool _ => "bool"
  | .int _ => "number"
  | .real _ => "number"
  | .str _ => "string"
  | .arr _ => "array"
  | .obj _ => "object"

/-- The `UnmarshalTypeError` for value `v` stored into `target`. -/
def unmarshalTypeError (v : Json) (target : String) : GoError :=
  .external ("json: cannot unmarshal " ++ v.kind ++ " into Go value of type " ++ target)

/-- Store a JSON value into a Go `string` field holding `cur`: a string is
stored, `null` leaves the field as it is, anything else is a type error. -/
def storeString (cur : String) : Json → Except GoError String
  | .str s => .ok s
  | .null => .ok cur
  | v => .error (unmarshalTypeError v "string")

/-- Store a JSON value into a Go `int` field holding `cur`: an integer literal in
the 64-bit range is stored, `null` leaves the field as it is, anything else
(other JSON kinds, a literal with fraction or exponent, an out-of-range
literal) is a type error. -/
def storeInt (cur : Int) : Json → Except GoError Int
  | .int n => if -(2 : Int) ^ 63 ≤ n ∧ n < (2 : Int) ^ 63 then .ok n
              else .error (unmarshalTypeError (.int n) "int")
  | .null => .ok cur
  | v => .error (unmarshalTypeError v "int")

/-- Members of an object are stored one after the other, in the order of the
text; a later member of the same name overwrites an earlier one.  The first
type error is the error of the whole call. -/
def storeMembers {α : Type} (set : α → String → Json → Except GoError α) :
    α → List (String × Json) → Except GoError α
  | a, [] => .ok a
  | a, (k, v) :: rest =>
    match set a k v with
    | .ok a' => storeMembers set a' rest
    | .error e => .error e

/-- Decoding of a body into a struct with zero value `zero` (`json.Unmarshal`,
`Decoder.Decode`): a syntax error is an error, `null` leaves the zero value,
an object is stored member by member, any other value is a type error. -/
def unmarshalStruct {α : Type} (zero : α) (set : α → String → Json → Except GoError α)
    (goType : String) : Except String Json → Except GoError α
  | .error msg => .error (.external msg)
  | .ok .null => .ok zero
  | .ok (.obj members) => storeMembers set zero members
  | .ok v => .error (unmarshalTypeError v goType)

/-! ## The types of `client.go` -/

/-- DeviceCodeResponse represents the response from the device authorization endpoint. -/
structure DeviceCodeResponse where
  DeviceCode : String
  UserCode : String
  VerificationURI : String
  VerificationURIComplete : String
  ExpiresIn : Int
  Interval : Int
deriving DecidableEq, Repr

/-- TokenResponse represents the response from the token endpoint. -/
structure TokenResponse where
  AccessToken : String
  RefreshToken : String
  TokenType : String
  ExpiresIn : Int
deriving DecidableEq, Repr

/-- TokenErrorResponse represents an error response from the token endpoint. -/
structure TokenErrorResponse where
  Error : String
  ErrorDescription : String
deriving DecidableEq, Repr

/-- Zero value of `DeviceCodeResponse` (`var deviceResp DeviceCodeResponse`). -/
def DeviceCodeResponse.zero : DeviceCodeResponse := ⟨"", "", "", "", 0, 0⟩

/-- Zero value of `TokenResponse`. -/
def TokenResponse.zero : TokenResponse := ⟨"", "", "", 0⟩

/-- Zero value of `TokenErrorResponse`. -/
def TokenErrorResponse.zero : TokenErrorResponse := ⟨"", ""⟩

/-- One member stored into a `DeviceCodeResponse`, by the `json:"..."` tags of
the struct; a member that names no field is skipped. -/
def DeviceCodeResponse.setMember (d : DeviceCodeResponse) (key : String) (v : Json) :
    Except GoError DeviceCodeResponse :=
  if keyMatches "device_code" key then
    (storeString d.DeviceCode v).map fun s => { d with DeviceCode := s }
  else if keyMatches "user_code" key then
    (storeString d.UserCode v).map fun s => { d with UserCode := s }
  else if keyMatches "verification_uri" key then
    (storeString d.VerificationURI v).map fun s => { d with VerificationURI := s }
  else if keyMatches "verification_uri_complete" key then
    (storeString d.VerificationURIComplete v).map fun s => { d with VerificationURIComplete := s }
  else if keyMatches "expires_in" key then
    (storeInt d.ExpiresIn v).map fun n => { d with ExpiresIn := n }
  else if keyMatches "interval" key then
    (storeInt d.Interval v).map fun n => { d with Interval := n }
  else .ok d

/-- One member stored into a `TokenResponse`. -/
def TokenResponse.setMember (t : TokenResponse) (key : String) (v : Json) :
    Except GoError TokenResponse :=
  if keyMatches "access_token" key then
    (storeString t.AccessToken v).map fun s => { t with AccessToken := s }
  else if keyMatches "refresh_token" key then
    (storeString t.RefreshToken v).map fun s => { t with RefreshToken := s }
  else if keyMatches "token_type" key then
    (storeString t.TokenType v).map fun s => { t with TokenType := s }
  else if keyMatches "expires_in" key then
    (storeInt t.ExpiresIn v).map fun n => { t with ExpiresIn := n }
  else .ok t

/-- One member stored into a `TokenErrorResponse`. -/
def TokenErrorResponse.setMember (t : TokenErrorResponse) (key : String) (v : Json) :
    Except GoError TokenErrorResponse :=
  if keyMatches "error" key then
    (storeString t.Error v).map fun s => { t with Error := s }
  else if keyMatches "error_description" key then
    (storeString t.ErrorDescription v).map fun s => { t with ErrorDescription := s }
  else .ok t

/-- The call `json.NewDecoder(resp.Body).Decode(&deviceResp)`. -/
def decodeDeviceCodeResponse (body : Except String Json) : Except GoError DeviceCodeResponse :=
  unmarshalStruct DeviceCodeResponse.zero DeviceCodeResponse.setMember "auth.DeviceCodeResponse" body

/-- The call `json.Unmarshal(respBody, &tokenResp)`. -/
def unmarshalTokenResponse (body : Except String Json) : Except GoError TokenResponse :=
  unmarshalStruct TokenResponse.zero TokenResponse.setMember "auth.TokenResponse" body

/-- The call `json.Unmarshal(respBody, &tokenErr)`. -/
def unmarshalTokenErrorResponse (body : Except String Json) : Except GoError TokenErrorResponse :=
  unmarshalStruct TokenErrorResponse.zero TokenErrorResponse.setMember "auth.TokenErrorResponse" body

/-- The value `http.StatusOK`. -/
def StatusOK : Nat := 200

/-- The error `fmt.Errorf("unexpected status %d: %s", resp.StatusCode, string(respBody))`. -/
def unexpectedStatus (status : Nat) (raw : String) : GoError :=
  .errorf ("unexpected status " ++ toString status ++ ": " ++ raw)

/-! ## `RequestDeviceCode` -/

/-- RequestDeviceCode initiates the device authorization flow.  The argument is
the outcome of the one request the function sends. -/
def RequestDeviceCode : Exchange → Option DeviceCodeResponse × Option GoError
  | .failed msg => (none, some (.external msg))
  | .response resp =>
    if resp.status ≠ StatusOK then
      (none, some (unexpectedStatus resp.status resp.raw))
    else
      match decodeDeviceCodeResponse resp.json with
      | .error err => (none, some err)
      | .ok deviceResp =>
        -- Set default interval if not provided
        if deviceResp.Interval = 0 then
          (some { deviceResp with Interval := 5 }, none)
        else
          (some deviceResp, none)

/-! ## `requestToken` and `PollForToken` -/

/-- requestToken makes a single token request; the argument is the outcome of
that request. -/
def requestToken : Exchange → Option TokenResponse × Option GoError
  | .failed msg => (none, some (.external msg))
  | .response resp =>
    -- Check for error response
    if resp.status ≠ StatusOK then
      match unmarshalTokenErrorResponse resp.json with
      | .ok tokenErr =>
        if tokenErr.Error ≠ "" then
          (none, some (.deviceFlow ⟨tokenErr.Error, tokenErr.ErrorDescription⟩))
        else
          (none, some (unexpectedStatus resp.status resp.raw))
      | .error _ => (none, some (unexpectedStatus resp.status resp.raw))
    else
      match unmarshalTokenResponse resp.json with
      | .error err => (none, some err)
      | .ok tokenResp => (some tokenResp, none)

/-- The constant `time.Second`, in nanoseconds. -/
def Second : Int := 1000000000

/-- Two's-complement wrap-around of 64-bit signed arithmetic. -/
def wrap64 (x : Int) : Int := (x + 2 ^ 63) % 2 ^ 64 - 2 ^ 63

/-- The expression `time.Duration(n) * time.Second`. -/
def seconds (n : Int) : Int := wrap64 (n * Second)

/-- What the `select` of the polling loop receives: the closing of `ctx.Done()`
(with the error `ctx.Err()` then returns), or a tick of the ticker, together
with the outcome of the token request made at that tick. -/
inductive Event where
  | ctxDone (err : CtxErr)
  | tick (x : Exchange)

/-- How a run of `PollForToken` stands: it returned, it panicked (a ticker with
a non-positive period), or it is waiting in the `select`. -/
inductive PollResult where
  | returned (token : Option TokenResponse) (err : Option GoError)
  | panicked (msg : String)
  | waiting
deriving DecidableEq, Repr

/-- State of the polling loop.  `period` is the period of the ticker in
nanoseconds, `requests` counts the calls of `requestToken`, `waits` lists the
ticker period that was in force at each tick received (the wait before each
token request, oldest first). -/
structure PollState where
  period : Int
  requests : Nat
  waits : List Int
deriving DecidableEq, Repr

/-- A run of `PollForToken`: how it stands and the state it reached. -/
structure PollRun where
  result : PollResult
  state : PollState
deriving DecidableEq, Repr

/-- The `for { select { ... } }` loop of `PollForToken`, for the parameter
`interval`, from state `st`, over the events the `select` receives. -/
def pollLoop (interval : Int) : PollState → List Event → PollRun
  | st, [] => ⟨.waiting, st⟩
  | st, .ctxDone e :: _ => ⟨.returned none (some (.ctx e)), st⟩
  | st, .tick x :: rest =>
    let st' : PollState := ⟨st.period, st.requests + 1, st.waits ++ [st.period]⟩
    match requestToken x with
    | (tokenResp, none) => ⟨.returned tokenResp none, st'⟩
    | (_, some err) =>
      -- Check if it's a retryable error
      match err.asDeviceFlowError with
      | some tokenErr =>
        if tokenErr.Code = "authorization_pending" then
          -- Continue polling
          pollLoop interval st' rest
        else if tokenErr.Code = "slow_down" then
          -- Increase interval
          let d := seconds (wrap64 (interval + 5))
          if d ≤ 0 then ⟨.panicked "non-positive interval for Ticker.Reset", st'⟩
          else pollLoop interval { st' with period := d } rest
        else if tokenErr.Code = "access_denied" then
          ⟨.returned none (some (.errorf "authorization denied by user")), st'⟩
        else if tokenErr.Code = "expired_token" then
          ⟨.returned none (some (.errorf "device code expired, please try again")), st'⟩
        else ⟨.returned none (some err), st'⟩
      | none => ⟨.returned none (some err), st'⟩

/-- PollForToken polls the token endpoint until authorization is complete or
fails.  `time.NewTicker` panics on a non-positive duration. -/
def PollForToken (interval : Int) (events : List Event) : PollRun :=
  let d := seconds interval
  if d ≤ 0 then ⟨.panicked "non-positive interval for NewTicker", ⟨d, 0, []⟩⟩
  else pollLoop interval ⟨d, 0, []⟩ events

/-! ## Vocabulary of the statements -/

/-- The decoded JSON error body of a token response with a status other than
200, if it has one: what the token endpoint says in `error` and
`error_description`. -/
def Exchange.errorBody : Exchange → Option TokenErrorResponse
  | .failed _ => none
  | .response r =>
    if r.status = StatusOK then none
    else
      match unmarshalTokenErrorResponse r.json with
      | .ok te => some te
      | .error _ => none

/-- The token endpoint answers with the protocol error `code`. -/
def Exchange.hasErrorCode (code : String) (x : Exchange) : Bool :=
  match x.errorBody with
  | some te => te.Error == code
  | none => false

/-- Value that the member named `name` has in an object: that of the last
member the field takes, `none` when the object has no such member. -/
def memberValue (name : String) : List (String × Json) → Option Json
  | [] => none
  | (k, v) :: rest =>
    match memberValue name rest with
    | some w => some w
    | none => if keyMatches name k then some v else none

/-- Text `t` occurs in text `s`. -/
def containsText (s t : String) : Prop := t.toList <:+: s.toList

instance (s t : String) : Decidable (containsText s t) := by
  unfold containsText; infer_instance

/-- The four protocol codes that `PollForToken` treats on their own. -/
def knownCodes : List String :=
  ["authorization_pending", "slow_down", "access_denied", "expired_token"]

/-! ## Sample answers of the token endpoint -/

/-- A `400` answer whose body is the object with the one member `error`. -/
def errorAnswer (code : String) : Exchange :=
  .response ⟨400, "\x7b\"error\":\"" ++ code ++ "\"\x7d", .ok (.obj [("error", .str code)])⟩

/-- A `400` answer with `error` and `error_description`. -/
def describedError (code description : String) : Exchange :=
  .response ⟨400, "\x7b\"error\":\"" ++ code ++ "\",\"error_description\":\"" ++ description ++ "\"\x7d",
    .ok (.obj [("error", .str code), ("error_description", .str description)])⟩

/-- The `200` answer
`{"access_token":"T1","token_type":"Bearer","expires_in":3600}`. -/
def tokenAnswerT1 : HTTPResponse :=
  ⟨200, "\x7b\"access_token\":\"T1\",\"token_type\":\"Bearer\",\"expires_in\":3600\x7d",
    .ok (.obj [("access_token", .str "T1"), ("token_type", .str "Bearer"), ("expires_in", .int 3600)])⟩

/-! ## Sample answers of the device-authorization endpoint -/

/-- The `200` answer of the scenario of the specification, without `interval`:
`{"device_code":"D1","user_code":"ABCD-1234",
"verification_uri":"https://auth.example/device","expires_in":600}`. -/
def deviceAnswerD1 : HTTPResponse :=
  ⟨200, "\x7b\"device_code\":\"D1\",\"user_code\":\"ABCD-1234\"," ++
      "\"verification_uri\":\"https://auth.example/device\",\"expires_in\":600\x7d",
    .ok (.obj [("device_code", .str "D1"), ("user_code", .str "ABCD-1234"),
      ("verification_uri", .str "https://auth.example/device"), ("expires_in", .int 600)])⟩

/-- The same answer with the member `interval` added. -/
def deviceAnswerWithInterval (n : Int) : HTTPResponse :=
  ⟨200, "\x7b\"device_code\":\"D1\",\"user_code\":\"ABCD-1234\"," ++
      "\"verification_uri\":\"https://auth.example/device\",\"expires_in\":600," ++
      "\"interval\":" ++ toString n ++ "\x7d",
    .ok (.obj [("device_code", .str "D1"), ("user_code", .str "ABCD-1234"),
      ("verification_uri", .str "https://auth.example/device"), ("expires_in", .int 600),
      ("interval", .int n)])⟩

/-- The `200` answer whose body is the empty object. -/
def emptyObjectAnswer : HTTPResponse := ⟨200, "\x7b\x7d", .ok (.obj [])⟩

/-! ## The requests the client builds -/

/-- The constant `defaultClientID`. -/
def defaultClientID : String := "go-auth-device-cli"

/-- The constant `defaultScopes`. -/
def defaultScopes : String := "openid profile email"

/-- Client is an HTTP client for auth endpoints.  The field `httpClient` (an
`http.Client` with a timeout of 30 seconds) is the transport, whose outcomes
are the `Exchange`s. -/
structure Client where
  hostname : String
  clientID : String
deriving DecidableEq, Repr

/-- NewClient creates a new auth client. -/
def NewClient (hostname : String) : Client :=
  { hostname := hostname, clientID := defaultClientID }

/-- A request as given to `http.NewRequestWithContext` and `httpClient.Do`:
method, URL, the headers set, and the body as the JSON value it is the text of. -/
structure HTTPRequest where
  method : String
  url : String
  header : List (String × String)
  body : Json

/-- The call `json.Marshal(payload)` for a `map[string]string`: an object with
one string member for each key, the keys in sorted order. -/
def marshalMap (payload : List (String × String)) : Json :=
  .obj ((payload.insertionSort fun a b => a.1 ≤ b.1).map fun kv => (kv.1, .str kv.2))

/-- The request that `RequestDeviceCode` builds. -/
def Client.deviceCodeRequest (c : Client) : HTTPRequest :=
  { method := "POST"
    url := c.hostname ++ "/api/auth/device/code"
    header := [("Content-Type", "application/json")]
    body := marshalMap [("client_id", c.clientID), ("scope", defaultScopes)] }

/-- The request that `requestToken` builds. -/
def Client.tokenRequest (c : Client) (deviceCode : String) : HTTPRequest :=
  { method := "POST"
    url := c.hostname ++ "/api/auth/device/token"
    header := [("Content-Type", "application/json")]
    body := marshalMap [("grant_type", "urn:ietf:params:oauth:grant-type:device_code"),
      ("device_code", deviceCode), ("client_id", c.clientID)] }

/-- The method `RequestDeviceCode` of a client: the request it builds and, for
the outcome `x` of sending it, the result. -/
def Client.RequestDeviceCode (c : Client) (x : Exchange) :
    HTTPRequest × (Option DeviceCodeResponse × Option GoError) :=
  (c.deviceCodeRequest, Auth.RequestDeviceCode x)

/-- The method `requestToken` of a client: the request it builds and, for the
outcome `x` of sending it, the result. -/
def Client.requestToken (c : Client) (deviceCode : String) (x : Exchange) :
    HTTPRequest × (Option TokenResponse × Option GoError) :=
  (c.tokenRequest deviceCode, Auth.requestToken x)

/-- The loop of `PollForToken` as a method of the client, with the list of the
requests built so far (oldest first) carried along. -/
def Client.pollLoop (c : Client) (deviceCode : String) (interval : Int) :
    PollState → List HTTPRequest → List Event → PollRun × List HTTPRequest
  | st, sent, [] => (⟨.waiting, st⟩, sent)
  | st, sent, .ctxDone e :: _ => (⟨.returned none (some (.ctx e)), st⟩, sent)
  | st, sent, .tick x :: rest =>
    let st' : PollState := ⟨st.period, st.requests + 1, st.waits ++ [st.period]⟩
    let (req, res) := c.requestToken deviceCode x
    let sent' := sent ++ [req]
    match res with
    | (tokenResp, none) => (⟨.returned tokenResp none, st'⟩, sent')
    | (_, some err) =>
      match err.asDeviceFlowError with
      | some tokenErr =>
        if tokenErr.Code = "authorization_pending" then
          c.pollLoop deviceCode interval st' sent' rest
        else if tokenErr.Code = "slow_down" then
          let d := seconds (wrap64 (interval + 5))
          if d ≤ 0 then (⟨.panicked "non-positive interval for Ticker.Reset", st'⟩, sent')
          else c.pollLoop deviceCode interval { st' with period := d } sent' rest
        else if tokenErr.Code = "access_denied" then
          (⟨.returned none (some (.errorf "authorization denied by user")), st'⟩, sent')
        else if tokenErr.Code = "expired_token" then
          (⟨.returned none (some (.errorf "device code expired, please try again")), st'⟩, sent')
        else (⟨.returned none (some err), st'⟩, sent')
      | none => (⟨.returned none (some err), st'⟩, sent')

/-- The method `PollForToken` of a client: the run, and the token requests
built during it. -/
def Client.PollForToken (c : Client) (deviceCode : String) (interval : Int)
    (events : List Event) : PollRun × List HTTPRequest :=
  let d := seconds interval
  if d ≤ 0 then (⟨.panicked "non-positive interval for NewTicker", ⟨d, 0, []⟩⟩, [])
  else c.pollLoop deviceCode interval ⟨d, 0, []⟩ [] events

/-- A `200` answer of the token endpoint whose body is
`{"error":"authorization_pending"}`. -/
def okWithErrorBody : HTTPResponse :=
  ⟨200, "\x7b\"error\":\"authorization_pending\"\x7d",
    .ok (.obj [("error", .str "authorization_pending")])⟩

/-! ## Tokens (`go-cli/internal/auth/token.go`) -/

/-- A value of `time.Time`: an instant, counted in nanoseconds on the time line. -/
structure Time where
  instant : Int
deriving DecidableEq, Repr

/-- The method `After` of `time.Time`: `t` is after `u`. -/
def Time.After (t u : Time) : Bool := decide (u.instant < t.instant)

/-- The method `Before` of `time.Time`: `t` is before `u`. -/
def Time.Before (t u : Time) : Bool := decide (t.instant < u.instant)

/-- Token represents an OAuth token. -/
structure Token where
  AccessToken : String
  RefreshToken : String
  TokenType : String
  ExpiresAt : Time
deriving DecidableEq, Repr

/-- IsExpired returns true if the token has expired; `now` is what `time.Now()`
returns. -/
def Token.IsExpired (t : Token) (now : Time) : Bool :=
  now.After t.ExpiresAt

/-- IsValid returns true if the token is valid and not expired. -/
def Token.IsValid (t : Token) (now : Time) : Bool :=
  t.AccessToken != "" && !t.IsExpired now

end Auth

/-! # Definitions of the other packages -/

/-! ## The command `login` (`go-cli/cmd/auth/login.go`) -/

namespace Cmd

/-- The function `strings.HasSuffix`. -/
def HasSuffix (s suffix : String) : Bool := suffix.toList.isSuffixOf s.toList

/-- The function `strings.TrimSuffix`: `s` without the trailing `suffix`, or `s`
itself when it does not end with `suffix`. -/
def TrimSuffix (s suffix : String) : String :=
  if HasSuffix s suffix then ⟨s.toList.take (s.toList.length - suffix.toList.length)⟩ else s

/-- AuthConfig holds authentication-related configuration (package `config`;
the field `ExpiresAt` plays no part here). -/
structure AuthConfig where
  Hostname : String
  UserEmail : String
deriving DecidableEq, Repr

/-- Config represents the application configuration. -/
structure Config where
  Auth : AuthConfig
deriving DecidableEq, Repr

/-- The hostname `runLogin` gets from the flag, the config file or the prompt
(lines 40 to 50): `loginHostname` is the flag, `cfg` what `config.Load` returned
(`none` for nil), `prompted` what `promptForHostname` returns when it is called. -/
def chosenHostname (loginHostname : String) (cfg : Option Config) (prompted : String) : String :=
  let hostname := loginHostname
  let hostname :=
    if hostname = "" then
      match cfg with
      | some cfg => if cfg.Auth.Hostname ≠ "" then cfg.Auth.Hostname else hostname
      | none => hostname
    else hostname
  if hostname = "" then prompted else hostname

/-- The hostname after `strings.TrimSuffix(hostname, "/")`, which `runLogin`
passes to `NewClient`. -/
def normalizedHostname (loginHostname : String) (cfg : Option Config) (prompted : String) :
    String :=
  TrimSuffix (chosenHostname loginHostname cfg prompted) "/"

/-- What `runLogin` does towards the user, call by call: plain printing with the
text printed, the calls of package `color` with their format and arguments,
the URL given to `browser.Open`, the start of the spinner with its suffix. -/
inductive Output where
  | print (text : String)
  | cyan (format : String) (args : List String)
  | yellow (format : String) (args : List String)
  | openBrowser (url : String)
  | spinner (suffix : String)
deriving DecidableEq, Repr

/-- The calls `runLogin` makes between the device-code response and the call of
`PollForToken` (lines 66 to 88).  `openErr url` is the message of the error
`browser.Open(url)` returns, `none` when it returns nil. -/
def showInstructions (deviceResp : Auth.DeviceCodeResponse) (loginNoBrowser : Bool)
    (openErr : String → Option String) : List Output :=
  -- Display instructions
  [.print "\n",
   .cyan "Please visit: %s" [deviceResp.VerificationURI],
   .print "And enter code: ",
   .yellow deviceResp.UserCode [],
   .print "\n"]
  -- Open browser if not disabled
  ++ (if !loginNoBrowser then
        let uri :=
          if deviceResp.VerificationURIComplete = "" then deviceResp.VerificationURI
          else deviceResp.VerificationURIComplete
        .openBrowser uri ::
          (match openErr uri with
           | some err =>
             [.print ("Could not open browser: " ++ err ++ "\n"),
              .print "Please open the URL manually.\n"]
           | none => [])
      else [])
  -- Start polling with spinner
  ++ [.spinner " Waiting for authorization..."]

end Cmd

/-! ## The JWT middleware (`better-auth-go/go-service/middleware/jwt.go`) -/

namespace GoService

open Auth (Json GoError storeString unmarshalTypeError)

/-- Audience is a custom type that handles JWT audience claim which can be
either a string or an array of strings per RFC 7519. -/
abbrev Audience := List String

/-- The call `json.Unmarshal(data, &single)` for `var single string`. -/
def unmarshalString : Except String Json → Except GoError String
  | .error msg => .error (.external msg)
  | .ok v => storeString "" v

/-- The elements of a JSON array stored into a fresh `[]string`, one after the
other: a string is stored, `null` leaves the empty string, anything else is a
type error (the first one is the error of the call). -/
def storeStrings : List Json → Except GoError (List String)
  | [] => .ok []
  | v :: rest =>
    match storeString "" v with
    | .error e => .error e
    | .ok s =>
      match storeStrings rest with
      | .error e => .error e
      | .ok ss => .ok (s :: ss)

/-- The call `json.Unmarshal(data, &multiple)` for `var multiple []string`:
an array is stored element by element, `null` leaves the nil slice, any other
value is a type error. -/
def unmarshalStrings : Except String Json → Except GoError (List String)
  | .error msg => .error (.external msg)
  | .ok .null => .ok []
  | .ok (.arr items) => storeStrings items
  | .ok v => .error (unmarshalTypeError v "[]string")

/-- UnmarshalJSON implements json.Unmarshaler to handle both string and
[]string.  The receiver `*a` holds `a` at the call; the result is what it holds
afterwards, and the error returned. -/
def Audience.UnmarshalJSON (a : Audience) (data : Except String Json) :
    Audience × Option GoError :=
  -- Try to unmarshal as a single string first
  match unmarshalString data with
  | .ok single => ([single], none)
  | .error _ =>
    -- Try to unmarshal as an array of strings
    match unmarshalStrings data with
    | .error err => (a, some err)
    | .ok multiple => (multiple, none)

/-- A JSON value that is a string. -/
def isStr : Json → Bool
  | .str _ => true
  | _ => false

/-- A JSON value that is `null`. -/
def isNull : Json → Bool
  | .null => true
  | _ => false

/-- The Go string an element of a JSON array leaves in a `[]string`. -/
def elementString : Json → String
  | .str s => s
  | _ => ""

end GoService

/-! ## The token middleware (`minimal/internal/http/middleware/auth.go`) -/

namespace Minimal

/-- The function `strings.ToLower` (the lower-casing written here is that of the
ASCII letters). -/
def ToLower (s : String) : String := ⟨s.toList.map Char.toLower⟩

/-- The text before and the text after the first occurrence of the character
`sep`, if there is one. -/
def cutFirst (sep : Char) : List Char → Option (List Char × List Char)
  | [] => none
  | c :: cs =>
    if c = sep then some ([], cs)
    else
      match cutFirst sep cs with
      | some (before, after) => some (c :: before, after)
      | none => none

/-- The call `strings.SplitN(s, " ", 2)`: the two parts of `s` around its first
space, or `s` alone when it has no space. -/
def SplitN2 (s : String) : List String :=
  match cutFirst ' ' s.toList with
  | some (before, after) => [⟨before⟩, ⟨after⟩]
  | none => [s]

/-- The value `http.StatusUnauthorized`. -/
def StatusUnauthorized : Nat := 401

/-- What the handler built by the middleware does with a request: it returns
the error `echo.NewHTTPError(code, message)`, or it calls `next(c)` and returns
what that returns. -/
inductive Handled where
  | httpError (code : Nat) (message : String)
  | next
deriving DecidableEq, Repr

/-- Auth creates a middleware that validates Bearer token authentication.
`header` is the `Authorization` header of the request, `none` when the request
has none (`Header.Get` then returns the empty string). -/
def Auth (token : String) (header : Option String) : Handled :=
  let auth := header.getD ""
  if auth = "" then
    .httpError StatusUnauthorized "missing authorization header"
  else
    match SplitN2 auth with
    | [scheme, rest] =>
      if ToLower scheme ≠ "bearer" then
        .httpError StatusUnauthorized "invalid authorization header format"
      else if rest ≠ token then
        .httpError StatusUnauthorized "invalid token"
      else .next
    | _ => .httpError StatusUnauthorized "invalid authorization header format"

end Minimal

/-! ## The keyring (`go-cli/internal/config/keyring.go`) -/

namespace Config

/-- Errors of package `keyring`: the value `keyring.ErrNotFound`, or any other
error of the keyring of the system. -/
inductive KeyringError where
  | ErrNotFound
  | other (msg : String)
deriving DecidableEq, Repr

/-- The constant `keyringService`. -/
def keyringService : String := "go-auth-device-cli"

/-- The constant `accessTokenKey`. -/
def accessTokenKey : String := "access_token"

/-- The constant `refreshTokenKey`. -/
def refreshTokenKey : String := "refresh_token"

/-- The keyring of the system with state `κ`: `Delete kr service key` is the
call `keyring.Delete(service, key)` on the keyring `kr`, with the keyring it
leaves and the error it returns. -/
structure Keyring (κ : Type) where
  Delete : κ → String → String → κ × Option KeyringError

/-- ClearTokens removes all tokens from the system keyring. -/
def ClearTokens {κ : Type} (K : Keyring κ) (kr : κ) : κ × Option KeyringError :=
  let (kr1, errAccess) := K.Delete kr keyringService accessTokenKey
  let (kr2, errRefresh) := K.Delete kr1 keyringService refreshTokenKey
  -- Return first error if any
  if errAccess ≠ none ∧ errAccess ≠ some .ErrNotFound then
    (kr2, errAccess)
  else if errRefresh ≠ none ∧ errRefresh ≠ some .ErrNotFound then
    (kr2, errRefresh)
  else
    (kr2, none)

/-- A keyring held as the list of its entries (service, key, secret), whose
`Delete` fails with "keyring locked" for the service "locked". -/
def listKeyring : Keyring (List (String × String × String)) where
  Delete := fun kr service key =>
    if service = "locked" then (kr, some (.other "keyring locked"))
    else if kr.any (fun e => e.1 = service ∧ e.2.1 = key) then
      (kr.filter (fun e => ¬ (e.1 = service ∧ e.2.1 = key)), none)
    else (kr, some .ErrNotFound)

end Config

/-! ## The paste service and its handler (`ent-atlas/internal`) -/

namespace EntAtlas

open Auth (Time)

/-- The entity `ent.Paste`, with the fields the service reads. -/
structure Paste where
  ID : Int
  Slug : String
  Title : String
  Content : String
  Language : String
  IsPublic : Bool
  ExpiresAt : Option Time
  CreatedAt : Time
deriving DecidableEq, Repr

/-- PasteOutput represents a paste response. -/
structure PasteOutput where
  ID : Int
  Slug : String
  Title : String
  Content : String
  Language : String
  IsPublic : Bool
  ExpiresAt : Option Time
  CreatedAt : Time
deriving DecidableEq, Repr

/-- The function `toPasteOutput`. -/
def toPasteOutput (p : Paste) : PasteOutput :=
  { ID := p.ID, Slug := p.Slug, Title := p.Title, Content := p.Content, Language := p.Language,
    IsPublic := p.IsPublic, ExpiresAt := p.ExpiresAt, CreatedAt := p.CreatedAt }

/-- ErrPasteExpired indicates the paste has expired. -/
structure ErrPasteExpired where
  Slug : String
deriving DecidableEq, Repr

/-- Method `Error` of `*ErrPasteExpired`. -/
def ErrPasteExpired.Error (e : ErrPasteExpired) : String :=
  "paste has expired: " ++ e.Slug

/-- Errors the service returns: an error of the query of `ent` (only its
message is kept), or an `*ErrPasteExpired`. -/
inductive ServiceError where
  | query (msg : String)
  | pasteExpired (e : ErrPasteExpired)
deriving DecidableEq, Repr

/-- The query `s.client.Paste.Query().Where(paste.Slug(slug)).Only(ctx)` on the
table `rows` (or on a database that fails with a message): the one paste of
that slug, an error when there is none, or more than one. -/
def queryOnly (db : Except String (List Paste)) (slug : String) : Except String Paste :=
  match db with
  | .error msg => .error msg
  | .ok rows =>
    match rows.filter (fun p => p.Slug = slug) with
    | [] => .error "ent: paste not found"
    | [p] => .ok p
    | _ => .error "ent: paste not singular"

/-- GetBySlug retrieves a paste by its slug; `now` is what `time.Now()` returns. -/
def GetBySlug (db : Except String (List Paste)) (slug : String) (now : Time) :
    Option PasteOutput × Option ServiceError :=
  match queryOnly db slug with
  | .error msg => (none, some (.query msg))
  | .ok p =>
    -- Check if expired
    match p.ExpiresAt with
    | some expiresAt =>
      if expiresAt.Before now then (none, some (.pasteExpired ⟨slug⟩))
      else (some (toPasteOutput p), none)
    | none => (some (toPasteOutput p), none)

/-- What a handler writes: `writeError(w, status, message)` or
`writeJSON(w, status, paste)`. -/
inductive Written where
  | error (status : Nat) (message : String)
  | paste (status : Nat) (paste : Option PasteOutput)
deriving DecidableEq, Repr

/-- The status of what was written. -/
def Written.status : Written → Nat
  | .error status _ => status
  | .paste status _ => status

/-- Get handles GET /pastes/{slug}; `slug` is `r.PathValue("slug")`. -/
def PasteHandler.Get (db : Except String (List Paste)) (slug : String) (now : Time) : Written :=
  if slug = "" then .error 400 "slug is required"
  else
    match GetBySlug db slug now with
    | (_, some err) =>
      match err with
      | .pasteExpired _ => .error 410 "paste has expired"
      | _ => .error 404 "paste not found"
    | (paste, none) => .paste 200 paste

/-- The values of a query string (`url.Values`), as the pairs of key and value
in the order of the query. -/
abbrev Values := List (String × String)

/-- The method `Get` of `url.Values`: the first value of the key, or the empty
string. -/
def Values.Get (v : Values) (key : String) : String :=
  match v.find? (fun kv => kv.1 = key) with
  | some kv => kv.2
  | none => ""

/-- The value of a decimal digit. -/
def digitValue (c : Char) : Option Nat :=
  if '0' ≤ c ∧ c ≤ '9' then some (c.toNat - '0'.toNat) else none

/-- The number a run of decimal digits writes, after the digits read as `acc`. -/
def digitsValue : List Char → Nat → Option Nat
  | [], acc => some acc
  | c :: cs, acc =>
    match digitValue c with
    | some d => digitsValue cs (acc * 10 + d)
    | none => none

/-- The digits of `Atoi`, after the sign: at least one digit, and a value in the
range of a 64-bit `int`. -/
def atoiDigits (ds : List Char) (negative : Bool) : Option Int :=
  if ds = [] then none
  else
    match digitsValue ds 0 with
    | none => none
    | some n =>
      if negative then (if n ≤ 2 ^ 63 then some (-(n : Int)) else none)
      else (if n < 2 ^ 63 then some (n : Int) else none)

/-- The function `strconv.Atoi`: an optional sign and decimal digits; `none`
when it returns an error. -/
def Atoi (s : String) : Option Int :=
  match s.toList with
  | '-' :: ds => atoiDigits ds true
  | '+' :: ds => atoiDigits ds false
  | ds => atoiDigits ds false

/-- The arguments of a call of `PasteService.List`. -/
structure ListCall where
  limit : Int
  offset : Int
deriving DecidableEq, Repr

/-- List handles GET /pastes: the call of `h.service.List` it makes for the
query `query` (`r.URL.Query()`). -/
def PasteHandler.List (query : Values) : ListCall :=
  let limit : Int := 20
  let offset : Int := 0
  let l := query.Get "limit"
  let limit :=
    if l ≠ "" then
      match Atoi l with
      | some parsed => if parsed > 0 ∧ parsed ≤ 100 then parsed else limit
      | none => limit
    else limit
  let o := query.Get "offset"
  let offset :=
    if o ≠ "" then
      match Atoi o with
      | some parsed => if parsed ≥ 0 then parsed else offset
      | none => offset
    else offset
  { limit := limit, offset := offset }

/-- The alphabet of `base64.URLEncoding`. -/
def encodeURL : String := "ABCDEFGHIJKLMNOPQRSTUVWXYZabcdefghijklmnopqrstuvwxyz0123456789-_"

/-- The character of the alphabet at index `i`. -/
def encodeChar (i : Nat) : Char := encodeURL.toList.getD i 'A'

/-- The method `EncodeToString` of `base64.URLEncoding` (with padding): every
three bytes give four characters, and a rest of one or two bytes gives two or
three characters, filled up to four with '='. -/
def EncodeToString : List (Fin 256) → List Char
  | a :: b :: c :: rest =>
    let val := a.val * 65536 + b.val * 256 + c.val
    encodeChar (val / 262144 % 64) :: encodeChar (val / 4096 % 64)
      :: encodeChar (val / 64 % 64) :: encodeChar (val % 64) :: EncodeToString rest
  | [a, b] =>
    let val := a.val * 65536 + b.val * 256
    [encodeChar (val / 262144 % 64), encodeChar (val / 4096 % 64),
      encodeChar (val / 64 % 64), '=']
  | [a] =>
    let val := a.val * 65536
    [encodeChar (val / 262144 % 64), encodeChar (val / 4096 % 64), '=', '=']
  | [] => []

/-- How a call of `generateSlug` ends: it returns a string and an error, or it
panics. -/
inductive SlugResult where
  | returned (slug : String) (err : Option String)
  | panicked (msg : String)
deriving DecidableEq, Repr

/-- The function `generateSlug`.  `random` is the outcome of `rand.Read(b)`: an
error, or the bytes it writes into `b`, byte `i` being `bytes i`. -/
def generateSlug (length : Int) (random : Except String (Nat → Fin 256)) : SlugResult :=
  if length < 0 then .panicked "makeslice: len out of range"
  else
    match random with
    | .error err => .returned "" (some err)
    | .ok bytes =>
      let b := (List.range length.toNat).map bytes
      let encoded := EncodeToString b
      if length.toNat ≤ encoded.length then .returned ⟨encoded.take length.toNat⟩ none
      else .panicked "slice bounds out of range"

end EntAtlas

/-! ## The handler of the JWT middleware (`jwt.go`, `JWTAuth`) -/

namespace GoService

open Auth (Json GoError storeString storeInt unmarshalStruct keyMatches)

/-- TokenClaims represents the claims extracted from the JWT token. -/
structure TokenClaims where
  ID : String
  Email : String
  Subject : String
  Issuer : String
  Audience : Audience
  ExpiresAt : Int
  IssuedAt : Int
deriving DecidableEq, Repr

/-- Zero value of `TokenClaims` (`var claims TokenClaims`). -/
def TokenClaims.zero : TokenClaims := ⟨"", "", "", "", [], 0, 0⟩

/-- One member stored into a `TokenClaims`, by the `json:"..."` tags of the
struct; the member `aud` goes through `Audience.UnmarshalJSON`. -/
def TokenClaims.setMember (t : TokenClaims) (key : String) (v : Json) :
    Except GoError TokenClaims :=
  if keyMatches "id" key then
    (storeString t.ID v).map fun s => { t with ID := s }
  else if keyMatches "email" key then
    (storeString t.Email v).map fun s => { t with Email := s }
  else if keyMatches "sub" key then
    (storeString t.Subject v).map fun s => { t with Subject := s }
  else if keyMatches "iss" key then
    (storeString t.Issuer v).map fun s => { t with Issuer := s }
  else if keyMatches "aud" key then
    match Audience.UnmarshalJSON t.Audience (.ok v) with
    | (a, none) => .ok { t with Audience := a }
    | (_, some err) => .error err
  else if keyMatches "exp" key then
    (storeInt t.ExpiresAt v).map fun n => { t with ExpiresAt := n }
  else if keyMatches "iat" key then
    (storeInt t.IssuedAt v).map fun n => { t with IssuedAt := n }
  else .ok t

/-- The call `json.Unmarshal(tokenBytes, &claims)`. -/
def unmarshalTokenClaims (tokenBytes : Except String Json) : Except GoError TokenClaims :=
  unmarshalStruct TokenClaims.zero TokenClaims.setMember "middleware.TokenClaims" tokenBytes

/-- AuthContext extends echo.Context with authenticated user information. -/
structure AuthContext where
  UserID : String
  Email : String
deriving DecidableEq, Repr

/-- The call `strings.Split(s, " ")` on the characters of `s`: the parts between
the spaces, one more than there are spaces. -/
def splitSpaces : List Char → List (List Char)
  | [] => [[]]
  | c :: cs =>
    if c = ' ' then [] :: splitSpaces cs
    else
      match splitSpaces cs with
      | part :: parts => (c :: part) :: parts
      | [] => [[c]]

/-- The call `strings.Split(s, " ")`. -/
def Split (s : String) : List String := (splitSpaces s.toList).map String.mk

/-- What the libraries make of a token string: `jwt.Parse` fails, or
`json.Marshal(token)` fails, or the JSON value that `tokenBytes` is the text of. -/
inductive Verified where
  | parseFailed (msg : String)
  | marshalFailed (msg : String)
  | token (json : Json)

/-- What the handler of `JWTAuth` does with a request: it returns the error
`echo.NewHTTPError(code, message)`, or it calls `next(ac)`. -/
inductive Handled where
  | httpError (code : Nat) (message : String)
  | next (ac : AuthContext)
deriving DecidableEq, Repr

/-- JWTAuth middleware validates JWT tokens using JWKS from the auth service.
`authHeader` is the `Authorization` header, `initCacheErr` and `cachedSetErr`
the errors of `initCache()` and `cache.CachedSet(...)` (`none` for nil), and
`verify` what `jwt.Parse` and `json.Marshal` make of a token string. -/
def JWTAuth (authHeader : String) (initCacheErr cachedSetErr : Option String)
    (verify : String → Verified) : Handled :=
  if authHeader = "" then
    .httpError 401 "missing authorization header"
  else
    -- Extract token from "Bearer <token>"
    match Split authHeader with
    | [scheme, tokenString] =>
      if Minimal.ToLower scheme ≠ "bearer" then
        .httpError 401 "invalid authorization header format"
      else
        match initCacheErr with
        | some err => .httpError 500 ("failed to initialize JWKS cache: " ++ err)
        | none =>
          match cachedSetErr with
          | some err => .httpError 500 ("failed to get JWKS cache: " ++ err)
          | none =>
            match verify tokenString with
            | .parseFailed err => .httpError 401 ("invalid token: " ++ err)
            | .marshalFailed err => .httpError 500 ("failed to marshal token: " ++ err)
            | .token tokenBytes =>
              match unmarshalTokenClaims (.ok tokenBytes) with
              | .error err =>
                .httpError 500 ("failed to unmarshal token claims: " ++ err.Error)
              | .ok claims =>
                -- Use subject as fallback for user ID if id claim is not set
                let userID := if claims.ID = "" then claims.Subject else claims.ID
                .next { UserID := userID, Email := claims.Email }
    | _ => .httpError 401 "invalid authorization header format"

/-- A token of the claims `sub`, `email`, `aud`, `exp`, without `id`. -/
def tokenWithoutID : Json :=
  .obj [("aud", .arr [.str "api"]), ("email", .str "ann@example.com"), ("exp", .int 1900000000),
    ("sub", .str "user-1")]

/-- The same token with the claim `id`. -/
def tokenWithID : Json :=
  .obj [("aud", .arr [.str "api"]), ("email", .str "ann@example.com"), ("exp", .int 1900000000),
    ("id", .str "u-42"), ("sub", .str "user-1")]

end GoService

/-! ## Sample table of pastes -/

namespace EntAtlas

/-- A table of two pastes: "aaaaaaaa" expires at instant 100, "bbbbbbbb" never. -/
def samplePastes : List Paste :=
  [⟨1, "aaaaaaaa", "", "x", "plaintext", true, some ⟨100⟩, ⟨0⟩⟩,
   ⟨2, "bbbbbbbb", "notes", "y", "go", false, none, ⟨7⟩⟩]

end EntAtlas

/-! # Theorems -/

namespace Auth

/-! ## Lemmas on the polling loop -/

theorem requestToken_errorBody {x : Exchange} {te : TokenErrorResponse}
    (h : x.errorBody = some te) (hne : te.Error ≠ "") :
    requestToken x = (none, some (.deviceFlow ⟨te.Error, te.ErrorDescription⟩)) := by
  cases x with
  | failed e => simp [Exchange.errorBody] at h
  | response r =>
    simp only [Exchange.errorBody] at h
    by_cases hs : r.status = StatusOK
    · simp [hs] at h
    · simp only [hs, if_false] at h
      cases hu : unmarshalTokenErrorResponse r.json with
      | error e => simp [hu] at h
      | ok t =>
        simp only [hu, Option.some.injEq] at h
        subst h
        simp [requestToken, hs, hu, hne]

theorem requestToken_hasErrorCode {x : Exchange} {code : String}
    (h : x.hasErrorCode code = true) (hne : code ≠ "") :
    ∃ desc, requestToken x = (none, some (.deviceFlow ⟨code, desc⟩)) := by
  unfold Exchange.hasErrorCode at h
  cases hb : x.errorBody with
  | none => simp [hb] at h
  | some te =>
    simp only [hb, beq_iff_eq] at h
    subst h
    exact ⟨te.ErrorDescription, requestToken_errorBody hb hne⟩

/-- The loop after a tick answered `authorization_pending`. -/
theorem pollLoop_pending (interval : Int) (st : PollState) (x : Exchange) (rest : List Event)
    (h : x.hasErrorCode "authorization_pending" = true) :
    pollLoop interval st (.tick x :: rest) =
      pollLoop interval ⟨st.period, st.requests + 1, st.waits ++ [st.period]⟩ rest := by
  obtain ⟨desc, hd⟩ := requestToken_hasErrorCode h (by decide)
  simp [pollLoop, hd, GoError.asDeviceFlowError]

/-- A prefix of events on which the loop is still waiting only moves the state. -/
theorem pollLoop_append (interval : Int) (pre evs : List Event) :
    ∀ (st st' : PollState), pollLoop interval st pre = ⟨.waiting, st'⟩ →
      pollLoop interval st (pre ++ evs) = pollLoop interval st' evs := by
  induction pre with
  | nil =>
    intro st st' h
    simp only [pollLoop, PollRun.mk.injEq, true_and] at h
    simp [h]
  | cons e pre ih =>
    intro st st' h
    cases e with
    | ctxDone c => simp [pollLoop] at h
    | tick x =>
      rw [List.cons_append]
      rcases hrt : requestToken x with ⟨tok, _ | err⟩
      · simp [pollLoop, hrt] at h
      · cases hdf : err.asDeviceFlowError with
        | none => simp [pollLoop, hrt, hdf] at h
        | some tokenErr =>
          simp only [pollLoop, hrt, hdf] at h ⊢
          split_ifs at h ⊢ with h1 h2 h3 h4 h5
          all_goals first
            | exact ih _ _ h
            | (simp at h)

/-- While the loop waits, every event received so far was a tick that made one request. -/
theorem pollLoop_waiting_requests (interval : Int) (pre : List Event) :
    ∀ (st st' : PollState), pollLoop interval st pre = ⟨.waiting, st'⟩ →
      st'.requests = st.requests + pre.length := by
  induction pre with
  | nil =>
    intro st st' h
    simp only [pollLoop, PollRun.mk.injEq, true_and] at h
    simp [h]
  | cons e pre ih =>
    intro st st' h
    cases e with
    | ctxDone c => simp [pollLoop] at h
    | tick x =>
      rcases hrt : requestToken x with ⟨tok, _ | err⟩
      · simp [pollLoop, hrt] at h
      · cases hdf : err.asDeviceFlowError with
        | none => simp [pollLoop, hrt, hdf] at h
        | some tokenErr =>
          simp only [pollLoop, hrt, hdf] at h
          split_ifs at h with h1 h2 h3 h4 h5
          all_goals first
            | (have hreq := ih _ _ h; simp only [List.length_cons] at hreq ⊢; omega)
            | (simp at h)

/-- A run of ticks all answered `authorization_pending` leaves the ticker
period as it is and makes one request per tick. -/
theorem pollLoop_pendings (interval : Int) (pendings : List Exchange) (evs : List Event)
    (hp : ∀ x ∈ pendings, x.hasErrorCode "authorization_pending" = true) :
    ∀ st : PollState, pollLoop interval st (pendings.map .tick ++ evs) =
      pollLoop interval ⟨st.period, st.requests + pendings.length,
        st.waits ++ List.replicate pendings.length st.period⟩ evs := by
  induction pendings with
  | nil => intro st; simp
  | cons x xs ih =>
    intro st
    have hx := hp x (List.mem_cons_self _ _)
    have hxs : ∀ y ∈ xs, y.hasErrorCode "authorization_pending" = true :=
      fun y hy => hp y (List.mem_cons_of_mem _ hy)
    rw [List.map_cons, List.cons_append, pollLoop_pending interval st x _ hx, ih hxs]
    simp only [List.length_cons, List.replicate_succ, List.append_assoc, List.singleton_append]
    congr 2
    omega

/-- While `PollForToken` waits, the state it reached continues the run. -/
theorem PollForToken_append (interval : Int) (pre evs : List Event) (st : PollState)
    (h : PollForToken interval pre = ⟨.waiting, st⟩) :
    PollForToken interval (pre ++ evs) = pollLoop interval st evs ∧ st.requests = pre.length := by
  unfold PollForToken at h ⊢
  by_cases hd : seconds interval ≤ 0
  · simp [hd] at h
  · simp only [hd, if_false] at h ⊢
    refine ⟨pollLoop_append interval pre evs _ _ h, ?_⟩
    have := pollLoop_waiting_requests interval pre _ _ h
    simpa using this

/-! ## Theorems on `PollForToken` -/

/-- C1 (defect of the code): the period is not cumulative.  With interval 5 and
the answers slow_down, slow_down, authorization_pending, the waits before the
three requests are 5 s, 10 s and 10 s and the ticker period stays 10 s: the
second slow_down resets the ticker to `interval+5` again, because `interval`
itself is never increased, where the claim has 5 + 5*2 = 15 s. -/
theorem PollForToken_slow_down_twice :
    PollForToken 5 [.tick (errorAnswer "slow_down"), .tick (errorAnswer "slow_down"),
        .tick (errorAnswer "authorization_pending")]
      = ⟨.waiting, ⟨10 * Second, 3, [5 * Second, 10 * Second, 10 * Second]⟩⟩
    ∧ 10 * Second ≠ (5 + 5 * 2) * Second := by
  decide

/-- C2: N answers `authorization_pending` followed by a 200 answer whose body
decodes to the token `t` make `PollForToken` (no context event, a ticker that
could be created) return `t` with a nil error after exactly N+1 requests. -/
theorem PollForToken_pending_then_success (interval : Int) (hticker : 0 < seconds interval)
    (pendings : List Exchange)
    (hp : ∀ x ∈ pendings, x.hasErrorCode "authorization_pending" = true)
    (resp : HTTPResponse) (hs : resp.status = StatusOK) (t : TokenResponse)
    (ht : unmarshalTokenResponse resp.json = .ok t) (rest : List Event) :
    (PollForToken interval (pendings.map .tick ++ .tick (.response resp) :: rest)).result
        = .returned (some t) none
    ∧ (PollForToken interval (pendings.map .tick ++ .tick (.response resp) :: rest)).state.requests
        = pendings.length + 1 := by
  have hd : ¬ seconds interval ≤ 0 := not_le.mpr hticker
  have hr : requestToken (.response resp) = (some t, none) := by
    simp [requestToken, hs, ht]
  simp only [PollForToken, hd, if_false, pollLoop_pendings interval pendings _ hp, pollLoop, hr]
  simp

/-- Witness of C2: the scenario of the specification, two pending answers and
then the token `T1`, returned after 3 requests. -/
theorem PollForToken_pending_then_success_witness :
    (PollForToken 5 ([errorAnswer "authorization_pending",
          errorAnswer "authorization_pending"].map .tick ++ .tick (.response tokenAnswerT1) :: [])).result
        = .returned (some ⟨"T1", "", "Bearer", 3600⟩) none
    ∧ (PollForToken 5 ([errorAnswer "authorization_pending",
          errorAnswer "authorization_pending"].map .tick ++ .tick (.response tokenAnswerT1) :: [])).state.requests
        = [errorAnswer "authorization_pending", errorAnswer "authorization_pending"].length + 1 :=
  PollForToken_pending_then_success 5 (by decide) _ (by decide) tokenAnswerT1 (by decide) _
    (by decide) []

/-- C3: whatever events came before (any run that is still polling), a token
answer carrying `access_denied` or `expired_token` makes `PollForToken` return
a nil token and a non-nil error at once: the request count is that of the
events so far plus one, whatever events follow; as first answer it ends the
polling after exactly 1 request. -/
theorem PollForToken_denied_or_expired (interval : Int) (pre : List Event) (st : PollState)
    (hpre : PollForToken interval pre = ⟨.waiting, st⟩) (x : Exchange)
    (hx : x.hasErrorCode "access_denied" = true ∨ x.hasErrorCode "expired_token" = true)
    (rest : List Event) :
    (∃ err, PollForToken interval (pre ++ .tick x :: rest)
        = ⟨.returned none (some err), ⟨st.period, pre.length + 1, st.waits ++ [st.period]⟩⟩)
    ∧ (pre = [] →
        (PollForToken interval (pre ++ .tick x :: rest)).state.requests = 1) := by
  obtain ⟨happ, hreq⟩ := PollForToken_append interval pre (.tick x :: rest) st hpre
  have key : ∃ err, PollForToken interval (pre ++ .tick x :: rest)
      = ⟨.returned none (some err), ⟨st.period, pre.length + 1, st.waits ++ [st.period]⟩⟩ := by
    rw [happ, ← hreq]
    rcases hx with hx | hx
    · obtain ⟨desc, hd⟩ := requestToken_hasErrorCode hx (by decide)
      exact ⟨.errorf "authorization denied by user",
        by simp [pollLoop, hd, GoError.asDeviceFlowError]⟩
    · obtain ⟨desc, hd⟩ := requestToken_hasErrorCode hx (by decide)
      exact ⟨.errorf "device code expired, please try again",
        by simp [pollLoop, hd, GoError.asDeviceFlowError]⟩
  refine ⟨key, fun hnil => ?_⟩
  obtain ⟨err, herr⟩ := key
  rw [herr, hnil]
  rfl

/-- Witness of C3: `access_denied` as the first answer, with further events
pending behind it. -/
theorem PollForToken_denied_or_expired_witness :
    (∃ err, PollForToken 5 ([] ++ .tick (errorAnswer "access_denied")
          :: [.tick (errorAnswer "authorization_pending")])
        = ⟨.returned none (some err), ⟨seconds 5, ([] : List Event).length + 1, [] ++ [seconds 5]⟩⟩)
    ∧ (([] : List Event) = [] →
        (PollForToken 5 ([] ++ .tick (errorAnswer "access_denied")
          :: [.tick (errorAnswer "authorization_pending")])).state.requests = 1) :=
  PollForToken_denied_or_expired 5 [] ⟨seconds 5, 0, []⟩ (by decide)
    (errorAnswer "access_denied") (Or.inl (by decide)) [.tick (errorAnswer "authorization_pending")]

/-- C6: when the `select` receives `ctx.Done()` after answers that were all
`authorization_pending`, `PollForToken` returns a nil token and the error of
the context; the requests made are those of the pending answers, whatever
events (ticks included) follow the closing of the context. -/
theorem PollForToken_context_done (interval : Int) (hticker : 0 < seconds interval)
    (pendings : List Exchange)
    (hp : ∀ x ∈ pendings, x.hasErrorCode "authorization_pending" = true)
    (e : CtxErr) (rest : List Event) :
    PollForToken interval (pendings.map .tick ++ .ctxDone e :: rest)
      = ⟨.returned none (some (.ctx e)),
          ⟨seconds interval, pendings.length,
            List.replicate pendings.length (seconds interval)⟩⟩ := by
  have hd : ¬ seconds interval ≤ 0 := not_le.mpr hticker
  simp [PollForToken, hd, pollLoop_pendings interval pendings _ hp, pollLoop]

/-- Witness of C6: two pending answers, then the deadline of the context, then
a tick that is never served. -/
theorem PollForToken_context_done_witness :
    PollForToken 5 ([errorAnswer "authorization_pending",
        errorAnswer "authorization_pending"].map .tick
        ++ .ctxDone .deadlineExceeded :: [.tick (.response tokenAnswerT1)])
      = ⟨.returned none (some (.ctx .deadlineExceeded)),
          ⟨seconds 5, [errorAnswer "authorization_pending",
              errorAnswer "authorization_pending"].length,
            List.replicate [errorAnswer "authorization_pending",
              errorAnswer "authorization_pending"].length (seconds 5)⟩⟩ :=
  PollForToken_context_done 5 (by decide) _ (by decide) .deadlineExceeded _

/-- C7: in a run that is still polling, a token request that fails in the
transport, or is answered with a status other than 200 whose error code is
none of the four known ones, ends `PollForToken` with that one request: it
returns a nil token and the very error `requestToken` returned.  That error is
the transport error itself, and for a non-empty unknown code the
`DeviceFlowError` with the code and description of the server. -/
theorem PollForToken_other_error (interval : Int) (pre : List Event) (st : PollState)
    (hpre : PollForToken interval pre = ⟨.waiting, st⟩) (x : Exchange)
    (hx : (∃ msg, x = .failed msg) ∨
      (∃ r, x = .response r ∧ r.status ≠ StatusOK ∧
        ∀ te, x.errorBody = some te → te.Error ∉ knownCodes))
    (rest : List Event) :
    ∃ err, requestToken x = (none, some err)
      ∧ PollForToken interval (pre ++ .tick x :: rest)
          = ⟨.returned none (some err), ⟨st.period, pre.length + 1, st.waits ++ [st.period]⟩⟩
      ∧ (∀ msg, x = .failed msg → err = .external msg)
      ∧ (∀ te, x.errorBody = some te → te.Error ≠ "" →
          err = .deviceFlow ⟨te.Error, te.ErrorDescription⟩) := by
  obtain ⟨happ, hreq⟩ := PollForToken_append interval pre (.tick x :: rest) st hpre
  rw [happ, ← hreq]
  rcases hx with ⟨msg, rfl⟩ | ⟨r, rfl, hs, hcode⟩
  · refine ⟨.external msg, by simp [requestToken], ?_, ?_, ?_⟩
    · simp [pollLoop, requestToken, GoError.asDeviceFlowError]
    · intro msg' he; cases he; rfl
    · intro te hte; simp [Exchange.errorBody] at hte
  · cases hb : (Exchange.response r).errorBody with
    | none =>
      have hr : requestToken (.response r) = (none, some (unexpectedStatus r.status r.raw)) := by
        simp only [Exchange.errorBody, hs, if_false] at hb
        cases hu : unmarshalTokenErrorResponse r.json with
        | error e => simp [requestToken, hs, hu]
        | ok t => simp [hu] at hb
      refine ⟨_, hr, ?_, ?_, ?_⟩
      · simp [pollLoop, hr, unexpectedStatus, GoError.asDeviceFlowError]
      · intro msg he; cases he
      · intro te hte; cases hte
    | some te =>
      by_cases hne : te.Error = ""
      · have hr : requestToken (.response r) = (none, some (unexpectedStatus r.status r.raw)) := by
          simp only [Exchange.errorBody, hs, if_false] at hb
          cases hu : unmarshalTokenErrorResponse r.json with
          | error e => simp [hu] at hb
          | ok t =>
            simp only [hu, Option.some.injEq] at hb
            subst hb
            simp [requestToken, hs, hu, hne]
        refine ⟨_, hr, ?_, ?_, ?_⟩
        · simp [pollLoop, hr, unexpectedStatus, GoError.asDeviceFlowError]
        · intro msg he; cases he
        · intro te' hte' hne'; cases hte'; exact absurd hne hne'
      · have hr := requestToken_errorBody hb hne
        have hk := hcode te hb
        simp only [knownCodes, List.mem_cons, List.mem_singleton, List.not_mem_nil, or_false,
          not_or] at hk
        refine ⟨_, hr, ?_, ?_, ?_⟩
        · simp [pollLoop, hr, GoError.asDeviceFlowError, hk.1, hk.2.1, hk.2.2.1, hk.2.2.2]
        · intro msg he; cases he
        · intro te' hte' _; cases hte'; rfl

/-- Witness of C7: after one pending answer the server answers 400 with the
unknown code `invalid_grant`; the `DeviceFlowError` comes back as it is and a
later tick is not served. -/
theorem PollForToken_other_error_witness :
    ∃ err, requestToken (describedError "invalid_grant" "bad code") = (none, some err)
      ∧ PollForToken 5 ([.tick (errorAnswer "authorization_pending")]
            ++ .tick (describedError "invalid_grant" "bad code") :: [.tick (.response tokenAnswerT1)])
          = ⟨.returned none (some err),
              ⟨seconds 5, [Event.tick (errorAnswer "authorization_pending")].length + 1,
                [seconds 5] ++ [seconds 5]⟩⟩
      ∧ (∀ msg, describedError "invalid_grant" "bad code" = .failed msg → err = .external msg)
      ∧ (∀ te, (describedError "invalid_grant" "bad code").errorBody = some te → te.Error ≠ "" →
          err = .deviceFlow ⟨te.Error, te.ErrorDescription⟩) :=
  PollForToken_other_error 5 [.tick (errorAnswer "authorization_pending")]
    ⟨seconds 5, 1, [seconds 5]⟩ (by decide) (describedError "invalid_grant" "bad code")
    (Or.inr ⟨_, rfl, by decide, fun te hte => by
      have h0 : (describedError "invalid_grant" "bad code").errorBody
          = some ⟨"invalid_grant", "bad code"⟩ := by decide
      rw [h0] at hte
      cases hte
      decide⟩)
    [.tick (.response tokenAnswerT1)]

/-- C8 (counterexample): the answer 400
`{"error":"access_denied","error_description":"User said no"}` ends the
polling with the error "authorization denied by user", which contains neither
the description of the server nor its code. -/
theorem PollForToken_access_denied_message :
    (describedError "access_denied" "User said no").errorBody
        = some ⟨"access_denied", "User said no"⟩
    ∧ PollForToken 5 [.tick (describedError "access_denied" "User said no")]
        = ⟨.returned none (some (.errorf "authorization denied by user")),
            ⟨5 * Second, 1, [5 * Second]⟩⟩
    ∧ ¬ containsText (GoError.errorf "authorization denied by user").Error "User said no"
    ∧ ¬ containsText (GoError.errorf "authorization denied by user").Error "access_denied" := by
  decide

/-- C8 (amended): in a run that is still polling, an answer with a status other
than 200 and a non-empty error code other than `authorization_pending` and
`slow_down` ends the polling with an error fixed by the code: for
`access_denied` and `expired_token` a fixed message of the client, without the
description of the server; for every other code the `DeviceFlowError` of that
code, whose message contains the code and, when the description is not empty,
is the code, ": " and the description, verbatim. -/
theorem PollForToken_terminal_error (interval : Int) (pre : List Event) (st : PollState)
    (hpre : PollForToken interval pre = ⟨.waiting, st⟩) (x : Exchange) (te : TokenErrorResponse)
    (hb : x.errorBody = some te) (hne : te.Error ≠ "")
    (hp : te.Error ≠ "authorization_pending") (hs : te.Error ≠ "slow_down")
    (rest : List Event) :
    ∃ err, PollForToken interval (pre ++ .tick x :: rest)
          = ⟨.returned none (some err), ⟨st.period, pre.length + 1, st.waits ++ [st.period]⟩⟩
      ∧ (te.Error = "access_denied" → err = .errorf "authorization denied by user")
      ∧ (te.Error = "expired_token" → err = .errorf "device code expired, please try again")
      ∧ (te.Error ≠ "access_denied" → te.Error ≠ "expired_token" →
          err = .deviceFlow ⟨te.Error, te.ErrorDescription⟩
          ∧ containsText err.Error te.Error
          ∧ (te.ErrorDescription ≠ "" →
              err.Error = te.Error ++ ": " ++ te.ErrorDescription
              ∧ containsText err.Error te.ErrorDescription)) := by
  obtain ⟨happ, hreq⟩ := PollForToken_append interval pre (.tick x :: rest) st hpre
  have hr := requestToken_errorBody hb hne
  rw [happ, ← hreq]
  by_cases hden : te.Error = "access_denied"
  · refine ⟨.errorf "authorization denied by user", ?_, fun _ => rfl, ?_, fun h => absurd hden h⟩
    · simp [pollLoop, hr, GoError.asDeviceFlowError, hden]
    · intro h; rw [hden] at h; exact absurd h (by decide)
  · by_cases hexp : te.Error = "expired_token"
    · refine ⟨.errorf "device code expired, please try again", ?_, fun h => absurd h hden,
        fun _ => rfl, fun _ h => absurd hexp h⟩
      simp [pollLoop, hr, GoError.asDeviceFlowError, hexp]
    · refine ⟨.deviceFlow ⟨te.Error, te.ErrorDescription⟩, ?_, fun h => absurd h hden,
        fun h => absurd h hexp, fun _ _ => ⟨rfl, ?_, ?_⟩⟩
      · simp [pollLoop, hr, GoError.asDeviceFlowError, hp, hs, hden, hexp]
      · by_cases hdesc : te.ErrorDescription = ""
        · simp only [GoError.Error, DeviceFlowError.Error, hdesc, ne_eq, not_true, if_false]
          exact List.infix_refl _
        · simp only [GoError.Error, DeviceFlowError.Error, hdesc, ne_eq, not_false_eq_true,
            if_true, containsText]
          exact ⟨[], (": " ++ te.ErrorDescription).toList, by simp [String.toList]⟩
      · intro hdesc
        simp only [GoError.Error, DeviceFlowError.Error, hdesc, ne_eq, not_false_eq_true,
          if_true, containsText, true_and]
        exact ⟨(te.Error ++ ": ").toList, [], by simp [String.toList]⟩

/-- Witness of C8 (amended): the unknown code `invalid_grant` with a
description, as the first answer. -/
theorem PollForToken_terminal_error_witness :
    ∃ err, PollForToken 5 ([] ++ .tick (describedError "invalid_grant" "bad code") :: [])
          = ⟨.returned none (some err), ⟨seconds 5, ([] : List Event).length + 1, [] ++ [seconds 5]⟩⟩
      ∧ ("invalid_grant" = "access_denied" → err = .errorf "authorization denied by user")
      ∧ ("invalid_grant" = "expired_token" → err = .errorf "device code expired, please try again")
      ∧ ("invalid_grant" ≠ "access_denied" → "invalid_grant" ≠ "expired_token" →
          err = .deviceFlow ⟨"invalid_grant", "bad code"⟩
          ∧ containsText err.Error "invalid_grant"
          ∧ ("bad code" ≠ "" →
              err.Error = "invalid_grant" ++ ": " ++ "bad code"
              ∧ containsText err.Error "bad code")) :=
  PollForToken_terminal_error 5 [] ⟨seconds 5, 0, []⟩ (by decide)
    (describedError "invalid_grant" "bad code") ⟨"invalid_grant", "bad code"⟩ (by decide)
    (by decide) (by decide) (by decide) []

/-! ## Lemmas on decoding -/

theorem keyMatches_iff (name key : String) :
    keyMatches name key = true ↔ foldName key = foldName name := by
  unfold keyMatches
  constructor
  · intro h
    rcases Bool.or_eq_true _ _ |>.mp h with h1 | h1
    · rw [beq_iff_eq] at h1; rw [h1]
    · exact beq_iff_eq.mp h1
  · intro h
    simp [h]

theorem keyMatches_other {a b key : String} (h : keyMatches a key = true)
    (hab : foldName a ≠ foldName b) : keyMatches b key = false := by
  rw [keyMatches_iff] at h
  cases hb : keyMatches b key with
  | false => rfl
  | true =>
    rw [keyMatches_iff] at hb
    exact absurd (h.symm.trans hb) hab

theorem memberValue_cons_none {name k : String} {v : Json} {rest : List (String × Json)}
    (h : memberValue name ((k, v) :: rest) = none) :
    memberValue name rest = none ∧ keyMatches name k = false := by
  simp only [memberValue] at h
  cases hr : memberValue name rest with
  | some w => simp [hr] at h
  | none =>
    simp only [hr] at h
    cases hk : keyMatches name k with
    | false => exact ⟨rfl, rfl⟩
    | true => simp [hk] at h

/-- A field that no member of the object names keeps the value it had. -/
theorem storeMembers_absent {α β : Type} (set : α → String → Json → Except GoError α)
    (proj : α → β) (name : String)
    (hset : ∀ a k v a', keyMatches name k = false → set a k v = .ok a' → proj a' = proj a) :
    ∀ (ms : List (String × Json)) (a a' : α), memberValue name ms = none →
      storeMembers set a ms = .ok a' → proj a' = proj a := by
  intro ms
  induction ms with
  | nil => intro a a' _ h; simp only [storeMembers, Except.ok.injEq] at h; rw [h]
  | cons kv rest ih =>
    intro a a' hm h
    obtain ⟨k, v⟩ := kv
    obtain ⟨hrest, hk⟩ := memberValue_cons_none hm
    simp only [storeMembers] at h
    cases hs : set a k v with
    | error e => simp [hs] at h
    | ok a1 =>
      simp only [hs] at h
      rw [ih a1 a' hrest h, hset a k v a1 hk hs]

/-- Whether the members of an object can be stored does not depend on the
struct they are stored into, when that holds for each single member. -/
theorem storeMembers_isOk {α : Type} (set : α → String → Json → Except GoError α)
    (hind : ∀ a b k v, (set a k v).isOk = (set b k v).isOk) (zero : α) :
    ∀ (ms : List (String × Json)) (a : α),
      (storeMembers set a ms).isOk = ms.all fun kv => (set zero kv.1 kv.2).isOk := by
  intro ms
  induction ms with
  | nil => intro a; rfl
  | cons kv rest ih =>
    intro a
    obtain ⟨k, v⟩ := kv
    simp only [storeMembers, List.all_cons]
    cases hs : set a k v with
    | error e =>
      have h0 : (set zero k v).isOk = false := by rw [← hind a zero k v, hs]; rfl
      rw [h0, Bool.false_and]
      rfl
    | ok a1 =>
      have h0 : (set zero k v).isOk = true := by rw [← hind a zero k v, hs]; rfl
      rw [h0, Bool.true_and]
      exact ih a1

theorem storeString_isOk (c c' : String) (v : Json) :
    (storeString c v).isOk = (storeString c' v).isOk := by
  cases v <;> rfl

theorem storeInt_isOk (c c' : Int) (v : Json) :
    (storeInt c v).isOk = (storeInt c' v).isOk := by
  cases v <;> rfl

theorem isOk_map {α β : Type} (f : α → β) (r : Except GoError α) :
    (r.map f).isOk = r.isOk := by
  cases r <;> rfl

theorem DeviceCodeResponse.setMember_isOk (a b : DeviceCodeResponse) (k : String) (v : Json) :
    (a.setMember k v).isOk = (b.setMember k v).isOk := by
  unfold DeviceCodeResponse.setMember
  split_ifs <;> (try simp only [isOk_map]) <;>
    first
      | exact storeString_isOk _ _ _
      | exact storeInt_isOk _ _ _
      | rfl

theorem DeviceCodeResponse.setMember_Interval (d d' : DeviceCodeResponse) (k : String) (v : Json)
    (hk : keyMatches "interval" k = false) (h : d.setMember k v = .ok d') :
    d'.Interval = d.Interval := by
  unfold DeviceCodeResponse.setMember at h
  split_ifs at h with h1 h2 h3 h4 h5 h6
  · cases hs : storeString d.DeviceCode v <;> simp [hs, Except.map] at h; subst h; rfl
  · cases hs : storeString d.UserCode v <;> simp [hs, Except.map] at h; subst h; rfl
  · cases hs : storeString d.VerificationURI v <;> simp [hs, Except.map] at h; subst h; rfl
  · cases hs : storeString d.VerificationURIComplete v <;> simp [hs, Except.map] at h; subst h; rfl
  · cases hs : storeInt d.ExpiresIn v <;> simp [hs, Except.map] at h; subst h; rfl
  · rw [hk] at h6; cases h6
  · cases h; rfl

theorem DeviceCodeResponse.setMember_DeviceCode (d d' : DeviceCodeResponse) (k : String)
    (v : Json) (hk : keyMatches "device_code" k = false) (h : d.setMember k v = .ok d') :
    d'.DeviceCode = d.DeviceCode := by
  unfold DeviceCodeResponse.setMember at h
  split_ifs at h with h1 h2 h3 h4 h5 h6
  · rw [hk] at h1; cases h1
  · cases hs : storeString d.UserCode v <;> simp [hs, Except.map] at h; subst h; rfl
  · cases hs : storeString d.VerificationURI v <;> simp [hs, Except.map] at h; subst h; rfl
  · cases hs : storeString d.VerificationURIComplete v <;> simp [hs, Except.map] at h; subst h; rfl
  · cases hs : storeInt d.ExpiresIn v <;> simp [hs, Except.map] at h; subst h; rfl
  · cases hs : storeInt d.Interval v <;> simp [hs, Except.map] at h; subst h; rfl
  · cases h; rfl

theorem DeviceCodeResponse.setMember_UserCode (d d' : DeviceCodeResponse) (k : String)
    (v : Json) (hk : keyMatches "user_code" k = false) (h : d.setMember k v = .ok d') :
    d'.UserCode = d.UserCode := by
  unfold DeviceCodeResponse.setMember at h
  split_ifs at h with h1 h2 h3 h4 h5 h6
  · cases hs : storeString d.DeviceCode v <;> simp [hs, Except.map] at h; subst h; rfl
  · rw [hk] at h2; cases h2
  · cases hs : storeString d.VerificationURI v <;> simp [hs, Except.map] at h; subst h; rfl
  · cases hs : storeString d.VerificationURIComplete v <;> simp [hs, Except.map] at h; subst h; rfl
  · cases hs : storeInt d.ExpiresIn v <;> simp [hs, Except.map] at h; subst h; rfl
  · cases hs : storeInt d.Interval v <;> simp [hs, Except.map] at h; subst h; rfl
  · cases h; rfl

theorem DeviceCodeResponse.setMember_VerificationURI (d d' : DeviceCodeResponse) (k : String)
    (v : Json) (hk : keyMatches "verification_uri" k = false) (h : d.setMember k v = .ok d') :
    d'.VerificationURI = d.VerificationURI := by
  unfold DeviceCodeResponse.setMember at h
  split_ifs at h with h1 h2 h3 h4 h5 h6
  · cases hs : storeString d.DeviceCode v <;> simp [hs, Except.map] at h; subst h; rfl
  · cases hs : storeString d.UserCode v <;> simp [hs, Except.map] at h; subst h; rfl
  · rw [hk] at h3; cases h3
  · cases hs : storeString d.VerificationURIComplete v <;> simp [hs, Except.map] at h; subst h; rfl
  · cases hs : storeInt d.ExpiresIn v <;> simp [hs, Except.map] at h; subst h; rfl
  · cases hs : storeInt d.Interval v <;> simp [hs, Except.map] at h; subst h; rfl
  · cases h; rfl

/-- A member that the field `interval` takes and that is an integer literal
sets `Interval` to that integer. -/
theorem DeviceCodeResponse.setMember_Interval_int (d d' : DeviceCodeResponse) (k : String)
    (n : Int) (hk : keyMatches "interval" k = true) (h : d.setMember k (.int n) = .ok d') :
    d'.Interval = n := by
  unfold DeviceCodeResponse.setMember at h
  have e1 := keyMatches_other (b := "device_code") hk (by decide)
  have e2 := keyMatches_other (b := "user_code") hk (by decide)
  have e3 := keyMatches_other (b := "verification_uri") hk (by decide)
  have e4 := keyMatches_other (b := "verification_uri_complete") hk (by decide)
  have e5 := keyMatches_other (b := "expires_in") hk (by decide)
  simp only [e1, e2, e3, e4, e5, hk, if_true, Bool.false_eq_true, if_false, storeInt] at h
  split_ifs at h with hr
  · simp only [Except.map, Except.ok.injEq] at h
    subst h
    rfl
  · simp [Except.map] at h

/-- The `Interval` that decoding an object leaves: untouched when no member
names the field, and the integer of the member when the object gives one. -/
theorem storeMembers_Interval :
    ∀ (ms : List (String × Json)) (d0 d : DeviceCodeResponse),
      storeMembers DeviceCodeResponse.setMember d0 ms = .ok d →
      (memberValue "interval" ms = none → d.Interval = d0.Interval)
      ∧ (∀ n, memberValue "interval" ms = some (.int n) → d.Interval = n) := by
  intro ms
  induction ms with
  | nil =>
    intro d0 d h
    simp only [storeMembers, Except.ok.injEq] at h
    subst h
    exact ⟨fun _ => rfl, fun n hn => by simp [memberValue] at hn⟩
  | cons kv rest ih =>
    intro d0 d h
    refine ⟨fun hm => storeMembers_absent DeviceCodeResponse.setMember
      (fun a => a.Interval) "interval"
      (fun a k v a' hk hs => DeviceCodeResponse.setMember_Interval a a' k v hk hs)
      _ d0 d hm h, ?_⟩
    obtain ⟨k, v⟩ := kv
    intro n hn
    simp only [storeMembers] at h
    cases hs : d0.setMember k v with
    | error e => simp [hs] at h
    | ok d1 =>
      simp only [hs] at h
      obtain ⟨ihnone, ihsome⟩ := ih d1 d h
      simp only [memberValue] at hn
      cases hr : memberValue "interval" rest with
      | some w =>
        simp only [hr, Option.some.injEq] at hn
        subst hn
        exact ihsome n hr
      | none =>
        simp only [hr] at hn
        cases hk : keyMatches "interval" k with
        | false => simp [hk] at hn
        | true =>
          simp only [hk, if_true, Option.some.injEq] at hn
          subst hn
          rw [ihnone hr]
          exact DeviceCodeResponse.setMember_Interval_int d0 d1 k n hk hs

/-! ## Theorems on `RequestDeviceCode` -/

/-- C4: for a 200 answer whose body is an object that decodes to `d` and that
omits `interval` or gives it as 0, `RequestDeviceCode` returns `d` with
`Interval` set to 5 and every other field as decoded. -/
theorem RequestDeviceCode_default_interval (resp : HTTPResponse) (ms : List (String × Json))
    (d : DeviceCodeResponse) (hs : resp.status = StatusOK) (hj : resp.json = .ok (.obj ms))
    (hd : decodeDeviceCodeResponse resp.json = .ok d)
    (hi : memberValue "interval" ms = none ∨ memberValue "interval" ms = some (.int 0)) :
    RequestDeviceCode (.response resp) = (some { d with Interval := 5 }, none) := by
  have hz : d.Interval = 0 := by
    have hd' := hd
    rw [hj] at hd'
    simp only [decodeDeviceCodeResponse, unmarshalStruct] at hd'
    obtain ⟨hnone, hsome⟩ := storeMembers_Interval ms _ d hd'
    rcases hi with hi | hi
    · rw [hnone hi]; rfl
    · exact hsome 0 hi
  simp [RequestDeviceCode, hs, hd, hz]

/-- Witness of C4: the scenario of the specification. -/
theorem RequestDeviceCode_default_interval_witness :
    RequestDeviceCode (.response deviceAnswerD1)
      = (some { ({ DeviceCode := "D1", UserCode := "ABCD-1234",
                   VerificationURI := "https://auth.example/device",
                   VerificationURIComplete := "", ExpiresIn := 600, Interval := 0 } :
                 DeviceCodeResponse) with Interval := 5 }, none) :=
  RequestDeviceCode_default_interval deviceAnswerD1 _ _ (by decide) rfl (by decide)
    (Or.inl rfl)

/-- C5 (counterexample): a 200 answer with `"interval":-3` is returned with
`Interval = -3`, which is not at least 1. -/
theorem RequestDeviceCode_negative_interval :
    RequestDeviceCode (.response (deviceAnswerWithInterval (-3)))
      = (some ⟨"D1", "ABCD-1234", "https://auth.example/device", "", 600, -3⟩, none)
    ∧ ¬ (1 ≤ (-3 : Int)) := by
  decide

/-- C5 (amended): a `DeviceCodeResponse` returned without error never has
`Interval` 0.  For a body that is an object, `Interval` is 5 when `interval` is
omitted, at least 1 when the server sends a non-negative integer, and the
integer of the server itself when that is negative. -/
theorem RequestDeviceCode_interval (x : Exchange) (d : DeviceCodeResponse)
    (h : RequestDeviceCode x = (some d, none)) :
    d.Interval ≠ 0
    ∧ ∀ resp ms, x = .response resp → resp.json = .ok (.obj ms) →
        (memberValue "interval" ms = none → d.Interval = 5)
        ∧ (∀ n, memberValue "interval" ms = some (.int n) →
            (0 ≤ n → 1 ≤ d.Interval) ∧ (n < 0 → d.Interval = n)) := by
  cases x with
  | failed msg => simp [RequestDeviceCode] at h
  | response r =>
    simp only [RequestDeviceCode] at h
    split_ifs at h with hs
    · simp at h
    · cases hd : decodeDeviceCodeResponse r.json with
      | error e => simp [hd] at h
      | ok d0 =>
        simp only [hd] at h
        have hdef : d = (if d0.Interval = 0 then { d0 with Interval := 5 } else d0) := by
          split_ifs at h ⊢ with hz <;> simp at h <;> exact h.symm
        refine ⟨?_, ?_⟩
        · rw [hdef]
          split_ifs with hz
          · show (5 : Int) ≠ 0
            decide
          · exact hz
        · intro resp ms hx hj
          cases hx
          rw [hj] at hd
          simp only [decodeDeviceCodeResponse, unmarshalStruct] at hd
          obtain ⟨hnone, hsome⟩ := storeMembers_Interval ms _ d0 hd
          refine ⟨fun hm => ?_, fun n hn => ?_⟩
          · have h0 : d0.Interval = 0 := by rw [hnone hm]; rfl
            rw [hdef]; simp [h0]
          · have hn0 : d0.Interval = n := hsome n hn
            rw [hdef]
            refine ⟨fun hpos => ?_, fun hneg => ?_⟩
            · split_ifs with hz
              · show (1 : Int) ≤ 5
                decide
              · omega
            · have hz : ¬ n = 0 := by omega
              simp [hz, hn0]

/-- Witness of C5 (amended): the answer with `"interval":7`. -/
theorem RequestDeviceCode_interval_witness :
    (⟨"D1", "ABCD-1234", "https://auth.example/device", "", 600, 7⟩ : DeviceCodeResponse).Interval ≠ 0
    ∧ ∀ resp ms, Exchange.response (deviceAnswerWithInterval 7) = .response resp →
        resp.json = .ok (.obj ms) →
        (memberValue "interval" ms = none →
          (⟨"D1", "ABCD-1234", "https://auth.example/device", "", 600, 7⟩ :
            DeviceCodeResponse).Interval = 5)
        ∧ (∀ n, memberValue "interval" ms = some (.int n) →
            (0 ≤ n → 1 ≤ (⟨"D1", "ABCD-1234", "https://auth.example/device", "", 600, 7⟩ :
              DeviceCodeResponse).Interval)
            ∧ (n < 0 → (⟨"D1", "ABCD-1234", "https://auth.example/device", "", 600, 7⟩ :
              DeviceCodeResponse).Interval = n)) :=
  RequestDeviceCode_interval (.response (deviceAnswerWithInterval 7))
    ⟨"D1", "ABCD-1234", "https://auth.example/device", "", 600, 7⟩ (by decide)

/-- C9 (counterexample): the 200 answer with body `{}` is not refused:
`RequestDeviceCode` returns, with a nil error, a `DeviceCodeResponse` whose
`DeviceCode`, `UserCode` and `VerificationURI` are empty. -/
theorem RequestDeviceCode_empty_object :
    RequestDeviceCode (.response emptyObjectAnswer) = (some ⟨"", "", "", "", 0, 5⟩, none) := by
  decide

/-- C9 (amended): members may be missing.  When a 200 answer with an object for
body is accepted, so is every 200 answer whose object has only some of those
members (any of `device_code`, `user_code`, `verification_uri`,
`verification_uri_complete`, `expires_in`, `interval` removed, down to `{}`), and a
`device_code`, `user_code` or `verification_uri` that is missing is returned as
the empty string. -/
theorem RequestDeviceCode_missing_members (resp resp' : HTTPResponse)
    (ms ms' : List (String × Json)) (d : DeviceCodeResponse)
    (hs : resp.status = StatusOK) (hs' : resp'.status = StatusOK)
    (hj : resp.json = .ok (.obj ms)) (hj' : resp'.json = .ok (.obj ms'))
    (hsub : ms'.Sublist ms) (hacc : RequestDeviceCode (.response resp) = (some d, none)) :
    ∃ d', RequestDeviceCode (.response resp') = (some d', none)
      ∧ (memberValue "device_code" ms' = none → d'.DeviceCode = "")
      ∧ (memberValue "user_code" ms' = none → d'.UserCode = "")
      ∧ (memberValue "verification_uri" ms' = none → d'.VerificationURI = "") := by
  -- the members of the accepted body can all be stored
  have hall : (ms.all fun kv => (DeviceCodeResponse.zero.setMember kv.1 kv.2).isOk) = true := by
    rw [← storeMembers_isOk DeviceCodeResponse.setMember DeviceCodeResponse.setMember_isOk
      DeviceCodeResponse.zero ms DeviceCodeResponse.zero]
    simp only [RequestDeviceCode, hs, ne_eq, not_true, if_false, decodeDeviceCodeResponse, hj,
      unmarshalStruct] at hacc
    cases hd : storeMembers DeviceCodeResponse.setMember DeviceCodeResponse.zero ms with
    | error e => simp [hd] at hacc
    | ok d0 => rfl
  -- hence so can those of the smaller body
  have hall' : (ms'.all fun kv => (DeviceCodeResponse.zero.setMember kv.1 kv.2).isOk) = true := by
    rw [List.all_eq_true] at hall ⊢
    exact fun kv hkv => hall kv (hsub.subset hkv)
  rw [← storeMembers_isOk DeviceCodeResponse.setMember DeviceCodeResponse.setMember_isOk
    DeviceCodeResponse.zero ms' DeviceCodeResponse.zero] at hall'
  cases hd' : storeMembers DeviceCodeResponse.setMember DeviceCodeResponse.zero ms' with
  | error e => rw [hd'] at hall'; cases hall'
  | ok d0 =>
    have h1 : memberValue "device_code" ms' = none → d0.DeviceCode = "" := fun hm =>
      storeMembers_absent DeviceCodeResponse.setMember (fun a => a.DeviceCode) "device_code"
        (fun a k v a' hk hset => DeviceCodeResponse.setMember_DeviceCode a a' k v hk hset)
        ms' _ d0 hm hd'
    have h2 : memberValue "user_code" ms' = none → d0.UserCode = "" := fun hm =>
      storeMembers_absent DeviceCodeResponse.setMember (fun a => a.UserCode) "user_code"
        (fun a k v a' hk hset => DeviceCodeResponse.setMember_UserCode a a' k v hk hset)
        ms' _ d0 hm hd'
    have h3 : memberValue "verification_uri" ms' = none → d0.VerificationURI = "" := fun hm =>
      storeMembers_absent DeviceCodeResponse.setMember (fun a => a.VerificationURI)
        "verification_uri"
        (fun a k v a' hk hset => DeviceCodeResponse.setMember_VerificationURI a a' k v hk hset)
        ms' _ d0 hm hd'
    by_cases hz : d0.Interval = 0
    · exact ⟨{ d0 with Interval := 5 },
        by simp [RequestDeviceCode, hs', decodeDeviceCodeResponse, hj', unmarshalStruct, hd', hz],
        h1, h2, h3⟩
    · exact ⟨d0,
        by simp [RequestDeviceCode, hs', decodeDeviceCodeResponse, hj', unmarshalStruct, hd', hz],
        h1, h2, h3⟩

/-- Witness of C9 (amended): from the answer of the scenario, the answer that
keeps only `expires_in`. -/
theorem RequestDeviceCode_missing_members_witness :
    ∃ d', RequestDeviceCode (.response ⟨200, "\x7b\"expires_in\":600\x7d",
          .ok (.obj [("expires_in", .int 600)])⟩) = (some d', none)
      ∧ (memberValue "device_code" [("expires_in", Json.int 600)] = none → d'.DeviceCode = "")
      ∧ (memberValue "user_code" [("expires_in", Json.int 600)] = none → d'.UserCode = "")
      ∧ (memberValue "verification_uri" [("expires_in", Json.int 600)] = none →
          d'.VerificationURI = "") :=
  RequestDeviceCode_missing_members deviceAnswerD1
    ⟨200, "\x7b\"expires_in\":600\x7d", .ok (.obj [("expires_in", .int 600)])⟩
    _ _ ⟨"D1", "ABCD-1234", "https://auth.example/device", "", 600, 5⟩
    (by decide) (by decide) rfl rfl
    (.cons _ (.cons _ (.cons _ (.cons₂ _ .slnil)))) (by decide)

/-- C10: for an answer with a status other than 200, `RequestDeviceCode` returns
a nil result and the error "unexpected status <code>: <body>", whose message
contains the decimal status code and the body as received.  The function looks
at this one exchange only: nothing is sent again. -/
theorem RequestDeviceCode_unexpected_status (resp : HTTPResponse) (hs : resp.status ≠ StatusOK) :
    ∃ err, RequestDeviceCode (.response resp) = (none, some err)
      ∧ err.Error = "unexpected status " ++ toString resp.status ++ ": " ++ resp.raw
      ∧ containsText err.Error (toString resp.status)
      ∧ containsText err.Error resp.raw := by
  refine ⟨unexpectedStatus resp.status resp.raw, by simp [RequestDeviceCode, hs], rfl, ?_, ?_⟩
  · exact ⟨"unexpected status ".toList, (": " ++ resp.raw).toList,
      by simp [unexpectedStatus, GoError.Error, String.toList]⟩
  · exact ⟨("unexpected status " ++ toString resp.status ++ ": ").toList, [],
      by simp [unexpectedStatus, GoError.Error, String.toList]⟩

/-- Witness of C10: the answer `503 Service Unavailable` with body "oops". -/
theorem RequestDeviceCode_unexpected_status_witness :
    ∃ err, RequestDeviceCode (.response ⟨503, "oops", .error "invalid character"⟩)
        = (none, some err)
      ∧ err.Error = "unexpected status " ++ toString 503 ++ ": " ++ "oops"
      ∧ containsText err.Error (toString 503)
      ∧ containsText err.Error "oops" :=
  RequestDeviceCode_unexpected_status ⟨503, "oops", .error "invalid character"⟩ (by decide)

end Auth

namespace Auth

/-! ## More lemmas on the polling loop -/

/-- The loop after a tick answered `slow_down`, when the new period is positive. -/
theorem pollLoop_slow_down (interval : Int) (st : PollState) (x : Exchange) (rest : List Event)
    (h : x.hasErrorCode "slow_down" = true) (hd : 0 < seconds (wrap64 (interval + 5))) :
    pollLoop interval st (.tick x :: rest) =
      pollLoop interval
        ⟨seconds (wrap64 (interval + 5)), st.requests + 1, st.waits ++ [st.period]⟩ rest := by
  obtain ⟨desc, hdesc⟩ := requestToken_hasErrorCode h (by decide)
  have hd' : ¬ seconds (wrap64 (interval + 5)) ≤ 0 := not_le.mpr hd
  simp [pollLoop, hdesc, GoError.asDeviceFlowError, hd']

/-- The waits recorded so far stay where they are: a run only adds to the list. -/
theorem pollLoop_waits_prefix (interval : Int) (evs : List Event) :
    ∀ st : PollState, st.waits <+: (pollLoop interval st evs).state.waits := by
  induction evs with
  | nil => intro st; simp [pollLoop]
  | cons e evs ih =>
    intro st
    cases e with
    | ctxDone c => simp [pollLoop]
    | tick x =>
      have hstep : ∀ st' : PollState, st'.waits = st.waits ++ [st.period] →
          st.waits <+: (pollLoop interval st' evs).state.waits := fun st' hw =>
        (List.prefix_append st.waits [st.period]).trans (hw ▸ ih st')
      rcases hrt : requestToken x with ⟨tok, _ | err⟩
      · simp [pollLoop, hrt]
      · cases hdf : err.asDeviceFlowError with
        | none => simp [pollLoop, hrt, hdf]
        | some tokenErr =>
          simp only [pollLoop, hrt, hdf]
          split_ifs
          all_goals first
            | exact hstep _ rfl
            | simp

/-- A tick records the period in force as the wait of its request. -/
theorem pollLoop_tick_waits (interval : Int) (st : PollState) (x : Exchange)
    (rest : List Event) :
    st.waits ++ [st.period] <+: (pollLoop interval st (.tick x :: rest)).state.waits := by
  have hstep : ∀ st' : PollState, st'.waits = st.waits ++ [st.period] →
      st.waits ++ [st.period] <+: (pollLoop interval st' rest).state.waits := fun st' hw =>
    hw ▸ pollLoop_waits_prefix interval rest st'
  rcases hrt : requestToken x with ⟨tok, _ | err⟩
  · simp [pollLoop, hrt]
  · cases hdf : err.asDeviceFlowError with
    | none => simp [pollLoop, hrt, hdf]
    | some tokenErr =>
      simp only [pollLoop, hrt, hdf]
      split_ifs
      all_goals first
        | exact hstep _ rfl
        | simp

/-- While the loop waits, it has recorded one wait per event received. -/
theorem pollLoop_waiting_waits (interval : Int) (pre : List Event) :
    ∀ (st st' : PollState), pollLoop interval st pre = ⟨.waiting, st'⟩ →
      st'.waits.length = st.waits.length + pre.length := by
  induction pre with
  | nil =>
    intro st st' h
    simp only [pollLoop, PollRun.mk.injEq, true_and] at h
    simp [h]
  | cons e pre ih =>
    intro st st' h
    cases e with
    | ctxDone c => simp [pollLoop] at h
    | tick x =>
      rcases hrt : requestToken x with ⟨tok, _ | err⟩
      · simp [pollLoop, hrt] at h
      · cases hdf : err.asDeviceFlowError with
        | none => simp [pollLoop, hrt, hdf] at h
        | some tokenErr =>
          simp only [pollLoop, hrt, hdf] at h
          split_ifs at h with h1 h2 h3 h4 h5
          all_goals first
            | (have hreq := ih _ _ h
               simp only [List.length_cons, List.length_append, List.length_singleton,
                 List.length_nil] at hreq ⊢
               omega)
            | (simp at h)

theorem PollForToken_waiting_waits (interval : Int) (pre : List Event) (st : PollState)
    (h : PollForToken interval pre = ⟨.waiting, st⟩) : st.waits.length = pre.length := by
  unfold PollForToken at h
  by_cases hd : seconds interval ≤ 0
  · simp [hd] at h
  · simp only [hd, if_false] at h
    simpa using pollLoop_waiting_waits interval pre _ _ h

/-- A number of seconds that fits a 64-bit duration is not wrapped. -/
theorem seconds_of_range (n : Int) (h1 : 0 ≤ n) (h2 : n ≤ 9223372036) :
    seconds n = n * Second := by
  unfold seconds wrap64 Second
  norm_num
  omega

theorem wrap64_of_range (n : Int) (h1 : 0 ≤ n) (h2 : n ≤ 9223372036) : wrap64 n = n := by
  unfold wrap64
  norm_num
  omega

end Auth

namespace Auth

/-! ## Theorems on the period of the ticker -/

/-- C11 (counterexample): with interval 18446744074 the 64-bit product with
`time.Second` wraps around: the ticker starts at 290448384 ns, and after
slow_down and authorization_pending the wait before the third request is
5290448384 ns (about 5.3 s), not 18446744079 s. -/
theorem PollForToken_slow_down_wrapped :
    PollForToken 18446744074 [.tick (errorAnswer "slow_down"),
        .tick (errorAnswer "authorization_pending"), .tick (errorAnswer "authorization_pending")]
      = ⟨.waiting, ⟨5290448384, 3, [290448384, 5290448384, 5290448384]⟩⟩
    ∧ (5290448384 : Int) ≠ (18446744074 + 5) * Second := by
  decide

/-- C11 (amended): for an interval i with 1 ≤ i and i + 5 ≤ 9223372036 seconds
(what a 64-bit duration holds), when the first answer is slow_down and the
second authorization_pending, the loop is still polling with the period of
i + 5 seconds; the wait before the third request is i + 5 seconds, which is
not the i seconds of the first wait. -/
theorem PollForToken_slow_down_then_pending (interval : Int) (h1 : 1 ≤ interval)
    (h2 : interval + 5 ≤ 9223372036) (x1 x2 : Exchange)
    (hsd : x1.hasErrorCode "slow_down" = true)
    (hp : x2.hasErrorCode "authorization_pending" = true) :
    PollForToken interval [.tick x1, .tick x2]
        = ⟨.waiting, ⟨(interval + 5) * Second, 2, [interval * Second, (interval + 5) * Second]⟩⟩
    ∧ (∀ x3 rest, (PollForToken interval (.tick x1 :: .tick x2 :: .tick x3 :: rest)).state.waits[2]?
        = some ((interval + 5) * Second))
    ∧ (interval + 5) * Second ≠ interval * Second := by
  have e1 : seconds interval = interval * Second := seconds_of_range interval (by omega) (by omega)
  have e2 : seconds (wrap64 (interval + 5)) = (interval + 5) * Second := by
    rw [wrap64_of_range _ (by omega) (by omega), seconds_of_range _ (by omega) (by omega)]
  have hpos1 : ¬ interval * Second ≤ 0 := by unfold Second; omega
  have hpos2 : 0 < seconds (wrap64 (interval + 5)) := by rw [e2]; unfold Second; omega
  have hrun : ∀ rest, PollForToken interval (.tick x1 :: .tick x2 :: rest)
      = pollLoop interval
          ⟨(interval + 5) * Second, 2, [interval * Second, (interval + 5) * Second]⟩ rest := by
    intro rest
    simp only [PollForToken, e1, hpos1, if_false]
    rw [pollLoop_slow_down interval _ x1 _ hsd hpos2, pollLoop_pending interval _ x2 _ hp, e2]
    rfl
  refine ⟨by rw [hrun]; rfl, fun x3 rest => ?_, by unfold Second; omega⟩
  rw [hrun]
  obtain ⟨l, hl⟩ := pollLoop_tick_waits interval
    ⟨(interval + 5) * Second, 2, [interval * Second, (interval + 5) * Second]⟩ x3 rest
  rw [← hl]
  simp

/-- Witness of C11 (amended): interval 5, the waits are 5 s, 10 s, 10 s. -/
theorem PollForToken_slow_down_then_pending_witness :
    PollForToken 5 [.tick (errorAnswer "slow_down"), .tick (errorAnswer "authorization_pending")]
        = ⟨.waiting, ⟨(5 + 5) * Second, 2, [5 * Second, (5 + 5) * Second]⟩⟩
    ∧ (∀ x3 rest, (PollForToken 5 (.tick (errorAnswer "slow_down")
          :: .tick (errorAnswer "authorization_pending") :: .tick x3 :: rest)).state.waits[2]?
        = some ((5 + 5) * Second))
    ∧ (5 + 5) * Second ≠ 5 * Second :=
  PollForToken_slow_down_then_pending 5 (by decide) (by decide) _ _ (by decide) (by decide)

/-- C12: in a run that is still polling with the ticker at period p, an
`authorization_pending` answer keeps the loop polling with the same period p
(only the request is counted and its wait p recorded), and the wait before the
next token request is p again. -/
theorem PollForToken_pending_keeps_period (interval : Int) (pre : List Event) (st : PollState)
    (hpre : PollForToken interval pre = ⟨.waiting, st⟩) (x : Exchange)
    (hx : x.hasErrorCode "authorization_pending" = true) :
    PollForToken interval (pre ++ [.tick x])
        = ⟨.waiting, ⟨st.period, pre.length + 1, st.waits ++ [st.period]⟩⟩
    ∧ (∀ y rest, (PollForToken interval (pre ++ .tick x :: .tick y :: rest)).state.waits[pre.length + 1]?
        = some st.period) := by
  have hlen := PollForToken_waiting_waits interval pre st hpre
  refine ⟨?_, fun y rest => ?_⟩
  · obtain ⟨happ, hreq⟩ := PollForToken_append interval pre [.tick x] st hpre
    rw [happ, pollLoop_pending interval st x _ hx, hreq]
    rfl
  · obtain ⟨happ, _⟩ := PollForToken_append interval pre (.tick x :: .tick y :: rest) st hpre
    rw [happ, pollLoop_pending interval st x _ hx]
    obtain ⟨l, hl⟩ := pollLoop_tick_waits interval
      ⟨st.period, st.requests + 1, st.waits ++ [st.period]⟩ y rest
    rw [← hl]
    simp only [List.append_assoc]
    rw [List.getElem?_append_right (by omega)]
    simp [hlen]

/-- Witness of C12: after a slow_down the period is 10 s; a pending answer
leaves it at 10 s. -/
theorem PollForToken_pending_keeps_period_witness :
    PollForToken 5 ([.tick (errorAnswer "slow_down")] ++ [.tick (errorAnswer "authorization_pending")])
        = ⟨.waiting, ⟨10 * Second, [Event.tick (errorAnswer "slow_down")].length + 1,
            [5 * Second] ++ [10 * Second]⟩⟩
    ∧ (∀ y rest, (PollForToken 5 ([.tick (errorAnswer "slow_down")]
          ++ .tick (errorAnswer "authorization_pending") :: .tick y :: rest)).state.waits[
            [Event.tick (errorAnswer "slow_down")].length + 1]?
        = some (10 * Second)) :=
  PollForToken_pending_keeps_period 5 [.tick (errorAnswer "slow_down")]
    ⟨10 * Second, 1, [5 * Second]⟩ (by decide) (errorAnswer "authorization_pending") (by decide)

end Auth

namespace Auth

/-! ## Theorems on the requests -/

theorem marshalMap_tokenPayload (grant deviceCode clientID : String) :
    marshalMap [("grant_type", grant), ("device_code", deviceCode), ("client_id", clientID)]
      = .obj [("client_id", .str clientID), ("device_code", .str deviceCode),
          ("grant_type", .str grant)] := by
  have h1 : ¬ ("grant_type".toList ≤ "device_code".toList) := by decide
  have h2 : ¬ ("grant_type".toList ≤ "client_id".toList) := by decide
  have h3 : ¬ ("device_code".toList ≤ "client_id".toList) := by decide
  simp only [String.toList] at h1 h2 h3
  simp [marshalMap, List.insertionSort, List.orderedInsert, h1, h2, h3]

theorem marshalMap_devicePayload (clientID scope : String) :
    marshalMap [("client_id", clientID), ("scope", scope)]
      = .obj [("client_id", .str clientID), ("scope", .str scope)] := by
  have h1 : "client_id".toList ≤ "scope".toList := by decide
  simp only [String.toList] at h1
  simp [marshalMap, List.insertionSort, List.orderedInsert, h1]

/-- The method of the client runs the loop of `PollForToken`, and builds one
request, always the same, for each call of `requestToken`. -/
theorem Client.pollLoop_eq (c : Client) (deviceCode : String) (interval : Int)
    (evs : List Event) :
    ∀ (st : PollState) (sent : List HTTPRequest),
      (c.pollLoop deviceCode interval st sent evs).1 = Auth.pollLoop interval st evs
      ∧ (c.pollLoop deviceCode interval st sent evs).2
          = sent ++ List.replicate ((Auth.pollLoop interval st evs).state.requests - st.requests)
              (c.tokenRequest deviceCode)
      ∧ st.requests ≤ (Auth.pollLoop interval st evs).state.requests := by
  induction evs with
  | nil => intro st sent; simp [Client.pollLoop, Auth.pollLoop]
  | cons e evs ih =>
    intro st sent
    cases e with
    | ctxDone ce => simp [Client.pollLoop, Auth.pollLoop]
    | tick x =>
      have hstep : ∀ st' : PollState, st'.requests = st.requests + 1 →
          (c.pollLoop deviceCode interval st' (sent ++ [c.tokenRequest deviceCode]) evs).1
              = Auth.pollLoop interval st' evs
          ∧ (c.pollLoop deviceCode interval st' (sent ++ [c.tokenRequest deviceCode]) evs).2
              = sent ++ List.replicate ((Auth.pollLoop interval st' evs).state.requests - st.requests)
                  (c.tokenRequest deviceCode)
          ∧ st.requests ≤ (Auth.pollLoop interval st' evs).state.requests := by
        intro st' hreq
        obtain ⟨i1, i2, i3⟩ := ih st' (sent ++ [c.tokenRequest deviceCode])
        refine ⟨i1, ?_, by omega⟩
        rw [i2, List.append_assoc, List.singleton_append, ← List.replicate_succ]
        congr 2
        omega
      rcases hrt : Auth.requestToken x with ⟨tok, _ | err⟩
      · simp [Client.pollLoop, Client.requestToken, Auth.pollLoop, hrt]
      · cases hdf : err.asDeviceFlowError with
        | none => simp [Client.pollLoop, Client.requestToken, Auth.pollLoop, hrt, hdf]
        | some tokenErr =>
          simp only [Client.pollLoop, Client.requestToken, Auth.pollLoop, hrt, hdf]
          split_ifs
          all_goals first
            | exact hstep _ rfl
            | simp

end Auth

namespace Auth

/-- C13: every token request built during `c.PollForToken(ctx, deviceCode,
interval)` has for body the JSON object with exactly the three members
`client_id` (the identifier of the client), `device_code` (the argument
`deviceCode`, the same on every poll) and `grant_type`
("urn:ietf:params:oauth:grant-type:device_code"); one such request is built
for each call of `requestToken`. -/
theorem Client.PollForToken_request_body (c : Client) (deviceCode : String) (interval : Int)
    (events : List Event) :
    (∀ req ∈ (c.PollForToken deviceCode interval events).2,
        req.body = .obj [("client_id", .str c.clientID), ("device_code", .str deviceCode),
          ("grant_type", .str "urn:ietf:params:oauth:grant-type:device_code")])
    ∧ (c.PollForToken deviceCode interval events).2.length
        = (c.PollForToken deviceCode interval events).1.state.requests
    ∧ (c.PollForToken deviceCode interval events).1 = Auth.PollForToken interval events := by
  unfold Client.PollForToken Auth.PollForToken
  by_cases hd : seconds interval ≤ 0
  · simp [hd]
  · simp only [hd, if_false]
    obtain ⟨h1, h2, _⟩ := Client.pollLoop_eq c deviceCode interval events
      ⟨seconds interval, 0, []⟩ []
    refine ⟨fun req hreq => ?_, ?_, h1⟩
    · rw [h2] at hreq
      simp only [List.nil_append] at hreq
      rw [List.eq_of_mem_replicate hreq]
      exact marshalMap_tokenPayload _ _ _
    · rw [h2, h1]
      simp

/-- C17 (counterexample): for the client of base address
"http://localhost:3000" the two URLs are
"http://localhost:3000/api/auth/device/code" and
"http://localhost:3000/api/auth/device/token", not the base address followed by
"/device/code" and "/device/token". -/
theorem NewClient_request_urls :
    (NewClient "http://localhost:3000").deviceCodeRequest.url
        = "http://localhost:3000/api/auth/device/code"
    ∧ (NewClient "http://localhost:3000").deviceCodeRequest.url
        ≠ "http://localhost:3000" ++ "/device/code"
    ∧ ((NewClient "http://localhost:3000").tokenRequest "D1").url
        = "http://localhost:3000/api/auth/device/token"
    ∧ ((NewClient "http://localhost:3000").tokenRequest "D1").url
        ≠ "http://localhost:3000" ++ "/device/token" := by
  decide

/-- C17 (amended): `RequestDeviceCode` builds a POST to the base address of the
client followed by "/api/auth/device/code", with content type
`application/json` and for body the object of `client_id` and `scope`;
`requestToken` builds a POST to the base address followed by
"/api/auth/device/token". -/
theorem Client.request_urls (c : Client) (deviceCode : String) (x : Exchange) :
    (c.RequestDeviceCode x).1.method = "POST"
    ∧ (c.RequestDeviceCode x).1.url = c.hostname ++ "/api/auth/device/code"
    ∧ (c.RequestDeviceCode x).1.header = [("Content-Type", "application/json")]
    ∧ (c.RequestDeviceCode x).1.body
        = .obj [("client_id", .str c.clientID), ("scope", .str "openid profile email")]
    ∧ (c.requestToken deviceCode x).1.method = "POST"
    ∧ (c.requestToken deviceCode x).1.url = c.hostname ++ "/api/auth/device/token" := by
  refine ⟨rfl, rfl, rfl, ?_, rfl, rfl⟩
  exact marshalMap_devicePayload _ _

end Auth

namespace Auth

/-! ## Theorems on `requestToken` -/

theorem memberValue_cons_some {name k : String} {v w : Json} {rest : List (String × Json)}
    (h : memberValue name ((k, v) :: rest) = some w) :
    memberValue name rest = some w
    ∨ (memberValue name rest = none ∧ keyMatches name k = true ∧ v = w) := by
  simp only [memberValue] at h
  cases hr : memberValue name rest with
  | some u =>
    simp only [hr, Option.some.injEq] at h
    exact Or.inl (by rw [h])
  | none =>
    simp only [hr] at h
    cases hk : keyMatches name k with
    | false => simp [hk] at h
    | true =>
      simp only [hk, if_true, Option.some.injEq] at h
      exact Or.inr ⟨rfl, rfl, h⟩

/-- A field named by a member of value `val` ends with what storing `val`
gives, when the members of other names leave the field alone. -/
theorem storeMembers_present {α β : Type} (set : α → String → Json → Except GoError α)
    (proj : α → β) (name : String) (val : Json) (b : β)
    (habs : ∀ a k v a', keyMatches name k = false → set a k v = .ok a' → proj a' = proj a)
    (hset : ∀ a k a', keyMatches name k = true → set a k val = .ok a' → proj a' = b) :
    ∀ (ms : List (String × Json)) (a a' : α), memberValue name ms = some val →
      storeMembers set a ms = .ok a' → proj a' = b := by
  intro ms
  induction ms with
  | nil => intro a a' hm _; simp [memberValue] at hm
  | cons kv rest ih =>
    intro a a' hm h
    obtain ⟨k, v⟩ := kv
    simp only [storeMembers] at h
    cases hs : set a k v with
    | error e => simp [hs] at h
    | ok a1 =>
      simp only [hs] at h
      rcases memberValue_cons_some hm with hr | ⟨hr, hk, hv⟩
      · exact ih a1 a' hr h
      · subst hv
        rw [storeMembers_absent set proj name habs rest a1 a' hr h]
        exact hset a k a1 hk hs

theorem TokenErrorResponse.setMember_Error (t t' : TokenErrorResponse) (k : String) (v : Json)
    (hk : keyMatches "error" k = false) (h : t.setMember k v = .ok t') : t'.Error = t.Error := by
  unfold TokenErrorResponse.setMember at h
  split_ifs at h with h1 h2
  · rw [hk] at h1; cases h1
  · cases hs : storeString t.ErrorDescription v <;> simp [hs, Except.map] at h; subst h; rfl
  · cases h; rfl

theorem TokenErrorResponse.setMember_ErrorDescription (t t' : TokenErrorResponse) (k : String)
    (v : Json) (hk : keyMatches "error_description" k = false) (h : t.setMember k v = .ok t') :
    t'.ErrorDescription = t.ErrorDescription := by
  unfold TokenErrorResponse.setMember at h
  split_ifs at h with h1 h2
  · cases hs : storeString t.Error v <;> simp [hs, Except.map] at h; subst h; rfl
  · rw [hk] at h2; cases h2
  · cases h; rfl

theorem TokenErrorResponse.setMember_Error_str (t t' : TokenErrorResponse) (k s : String)
    (hk : keyMatches "error" k = true) (h : t.setMember k (.str s) = .ok t') : t'.Error = s := by
  unfold TokenErrorResponse.setMember at h
  simp only [hk, if_true, storeString, Except.map, Except.ok.injEq] at h
  subst h
  rfl

theorem TokenErrorResponse.setMember_ErrorDescription_str (t t' : TokenErrorResponse)
    (k s : String) (hk : keyMatches "error_description" k = true)
    (h : t.setMember k (.str s) = .ok t') : t'.ErrorDescription = s := by
  unfold TokenErrorResponse.setMember at h
  have e1 := keyMatches_other (b := "error") hk (by decide)
  simp only [e1, hk, if_true, Bool.false_eq_true, if_false, storeString, Except.map,
    Except.ok.injEq] at h
  subst h
  rfl

theorem TokenResponse.setMember_AccessToken (t t' : TokenResponse) (k : String) (v : Json)
    (hk : keyMatches "access_token" k = false) (h : t.setMember k v = .ok t') :
    t'.AccessToken = t.AccessToken := by
  unfold TokenResponse.setMember at h
  split_ifs at h with h1 h2 h3 h4
  · rw [hk] at h1; cases h1
  · cases hs : storeString t.RefreshToken v <;> simp [hs, Except.map] at h; subst h; rfl
  · cases hs : storeString t.TokenType v <;> simp [hs, Except.map] at h; subst h; rfl
  · cases hs : storeInt t.ExpiresIn v <;> simp [hs, Except.map] at h; subst h; rfl
  · cases h; rfl

end Auth

namespace Auth

/-- C14: for an answer with a status other than 200, `requestToken` returns no
token, and exactly one of two errors.  When the body decodes as a
`TokenErrorResponse` with a non-empty `error`: the `DeviceFlowError` whose
`Code` is that `error` and whose `Description` is `error_description` (the empty
string when the member is absent).  In every other case (a body that does not
decode, an empty or missing `error`): the error "unexpected status <code>:
<body>", with the status code and the body as received. -/
theorem requestToken_error_response (resp : HTTPResponse) (hs : resp.status ≠ StatusOK) :
    (requestToken (.response resp)).1 = none
    ∧ ((∃ te, unmarshalTokenErrorResponse resp.json = .ok te ∧ te.Error ≠ ""
          ∧ requestToken (.response resp)
              = (none, some (.deviceFlow ⟨te.Error, te.ErrorDescription⟩)))
       ∨ ((¬ ∃ te, unmarshalTokenErrorResponse resp.json = .ok te ∧ te.Error ≠ "")
          ∧ requestToken (.response resp) = (none, some (unexpectedStatus resp.status resp.raw))
          ∧ containsText (unexpectedStatus resp.status resp.raw).Error (toString resp.status)
          ∧ containsText (unexpectedStatus resp.status resp.raw).Error resp.raw))
    ∧ (∀ ms te, resp.json = .ok (.obj ms) → unmarshalTokenErrorResponse resp.json = .ok te →
        (∀ s, memberValue "error" ms = some (.str s) → te.Error = s)
        ∧ (memberValue "error" ms = none → te.Error = "")
        ∧ (∀ s, memberValue "error_description" ms = some (.str s) → te.ErrorDescription = s)
        ∧ (memberValue "error_description" ms = none → te.ErrorDescription = "")) := by
  have hc1 : containsText (unexpectedStatus resp.status resp.raw).Error (toString resp.status) :=
    ⟨"unexpected status ".toList, (": " ++ resp.raw).toList,
      by simp [unexpectedStatus, GoError.Error, String.toList]⟩
  have hc2 : containsText (unexpectedStatus resp.status resp.raw).Error resp.raw :=
    ⟨("unexpected status " ++ toString resp.status ++ ": ").toList, [],
      by simp [unexpectedStatus, GoError.Error, String.toList]⟩
  refine ⟨?_, ?_, ?_⟩
  · simp only [requestToken, hs, ne_eq, not_false_eq_true, if_true]
    cases unmarshalTokenErrorResponse resp.json with
    | error e => rfl
    | ok te => by_cases hne : te.Error = "" <;> simp [hne]
  · cases hu : unmarshalTokenErrorResponse resp.json with
    | error e =>
      refine Or.inr ⟨fun ⟨te, hte, _⟩ => (by cases hte), ?_, hc1, hc2⟩
      simp [requestToken, hs, hu]
    | ok te =>
      by_cases hne : te.Error = ""
      · refine Or.inr ⟨fun ⟨te', hte', hne'⟩ => ?_, ?_, hc1, hc2⟩
        · cases hte'; exact hne' hne
        · simp [requestToken, hs, hu, hne]
      · exact Or.inl ⟨te, rfl, hne, by simp [requestToken, hs, hu, hne]⟩
  · intro ms te hj hu
    rw [hj] at hu
    simp only [unmarshalTokenErrorResponse, unmarshalStruct] at hu
    refine ⟨fun s hm => ?_, fun hm => ?_, fun s hm => ?_, fun hm => ?_⟩
    · exact storeMembers_present TokenErrorResponse.setMember (fun a => a.Error) "error"
        (.str s) s
        (fun a k v a' hk hset => TokenErrorResponse.setMember_Error a a' k v hk hset)
        (fun a k a' hk hset => TokenErrorResponse.setMember_Error_str a a' k s hk hset)
        ms _ te hm hu
    · exact storeMembers_absent TokenErrorResponse.setMember (fun a => a.Error) "error"
        (fun a k v a' hk hset => TokenErrorResponse.setMember_Error a a' k v hk hset)
        ms _ te hm hu
    · exact storeMembers_present TokenErrorResponse.setMember (fun a => a.ErrorDescription)
        "error_description" (.str s) s
        (fun a k v a' hk hset => TokenErrorResponse.setMember_ErrorDescription a a' k v hk hset)
        (fun a k a' hk hset =>
          TokenErrorResponse.setMember_ErrorDescription_str a a' k s hk hset)
        ms _ te hm hu
    · exact storeMembers_absent TokenErrorResponse.setMember (fun a => a.ErrorDescription)
        "error_description"
        (fun a k v a' hk hset => TokenErrorResponse.setMember_ErrorDescription a a' k v hk hset)
        ms _ te hm hu

/-- Witness of C14: the answer 503 with the body "oops", which is not JSON. -/
theorem requestToken_error_response_witness :
    (requestToken (.response ⟨503, "oops", .error "invalid character"⟩)).1 = none
    ∧ ((∃ te, unmarshalTokenErrorResponse (.error "invalid character") = .ok te ∧ te.Error ≠ ""
          ∧ requestToken (.response ⟨503, "oops", .error "invalid character"⟩)
              = (none, some (.deviceFlow ⟨te.Error, te.ErrorDescription⟩)))
       ∨ ((¬ ∃ te, unmarshalTokenErrorResponse (.error "invalid character") = .ok te
              ∧ te.Error ≠ "")
          ∧ requestToken (.response ⟨503, "oops", .error "invalid character"⟩)
              = (none, some (unexpectedStatus 503 "oops"))
          ∧ containsText (unexpectedStatus 503 "oops").Error (toString 503)
          ∧ containsText (unexpectedStatus 503 "oops").Error "oops"))
    ∧ (∀ ms te, (Except.error "invalid character" : Except String Json) = .ok (.obj ms) →
        unmarshalTokenErrorResponse (.error "invalid character") = .ok te →
        (∀ s, memberValue "error" ms = some (.str s) → te.Error = s)
        ∧ (memberValue "error" ms = none → te.Error = "")
        ∧ (∀ s, memberValue "error_description" ms = some (.str s) → te.ErrorDescription = s)
        ∧ (memberValue "error_description" ms = none → te.ErrorDescription = "")) :=
  requestToken_error_response ⟨503, "oops", .error "invalid character"⟩ (by decide)

/-- C15 (counterexample): the 200 answers with body `{}` and with body
`{"error":"authorization_pending"}` are successes for `requestToken`, with an
empty `AccessToken`, and `PollForToken` returns the latter as the credential. -/
theorem requestToken_ok_without_access_token :
    requestToken (.response emptyObjectAnswer) = (some ⟨"", "", "", 0⟩, none)
    ∧ requestToken (.response okWithErrorBody) = (some ⟨"", "", "", 0⟩, none)
    ∧ PollForToken 5 [.tick (.response okWithErrorBody)]
        = ⟨.returned (some ⟨"", "", "", 0⟩) none, ⟨5 * Second, 1, [5 * Second]⟩⟩ := by
  decide

/-- C15 (amended): for a 200 answer, `requestToken` reports success exactly
when the body decodes as a `TokenResponse`, and then returns what was decoded:
an object without `access_token` gives an empty `AccessToken` and no error, and
`PollForToken`, in a run that is still polling, returns that `TokenResponse`.
When the body does not decode, the error of the decoding is returned. -/
theorem requestToken_ok_response (resp : HTTPResponse) (hs : resp.status = StatusOK) :
    (∀ t, unmarshalTokenResponse resp.json = .ok t →
        requestToken (.response resp) = (some t, none)
        ∧ (∀ ms, resp.json = .ok (.obj ms) → memberValue "access_token" ms = none →
            t.AccessToken = "")
        ∧ (∀ interval pre st rest, PollForToken interval pre = ⟨.waiting, st⟩ →
            (PollForToken interval (pre ++ .tick (.response resp) :: rest)).result
              = .returned (some t) none))
    ∧ (∀ e, unmarshalTokenResponse resp.json = .error e →
        requestToken (.response resp) = (none, some e)) := by
  refine ⟨fun t ht => ?_, fun e he => by simp [requestToken, hs, he]⟩
  have hr : requestToken (.response resp) = (some t, none) := by simp [requestToken, hs, ht]
  refine ⟨hr, fun ms hj hm => ?_, fun interval pre st rest hpre => ?_⟩
  · rw [hj] at ht
    simp only [unmarshalTokenResponse, unmarshalStruct] at ht
    exact storeMembers_absent TokenResponse.setMember (fun a => a.AccessToken) "access_token"
      (fun a k v a' hk hset => TokenResponse.setMember_AccessToken a a' k v hk hset)
      ms _ t hm ht
  · obtain ⟨happ, _⟩ := PollForToken_append interval pre (.tick (.response resp) :: rest) st hpre
    rw [happ]
    simp [pollLoop, hr]

/-- Witness of C15 (amended): the answer 200 with the body
`{"error":"authorization_pending"}`. -/
theorem requestToken_ok_response_witness :
    (∀ t, unmarshalTokenResponse okWithErrorBody.json = .ok t →
        requestToken (.response okWithErrorBody) = (some t, none)
        ∧ (∀ ms, okWithErrorBody.json = .ok (.obj ms) → memberValue "access_token" ms = none →
            t.AccessToken = "")
        ∧ (∀ interval pre st rest, PollForToken interval pre = ⟨.waiting, st⟩ →
            (PollForToken interval (pre ++ .tick (.response okWithErrorBody) :: rest)).result
              = .returned (some t) none))
    ∧ (∀ e, unmarshalTokenResponse okWithErrorBody.json = .error e →
        requestToken (.response okWithErrorBody) = (none, some e)) :=
  requestToken_ok_response okWithErrorBody (by decide)

end Auth

namespace Cmd

/-! ## Theorems on `runLogin` -/

theorem HasSuffix_slash (s : String) :
    HasSuffix s "/" = true ↔ ∃ l, s.toList = l ++ ['/'] := by
  unfold HasSuffix
  rw [List.isSuffixOf_iff_suffix]
  constructor
  · rintro ⟨t, ht⟩; exact ⟨t, ht.symm⟩
  · rintro ⟨t, ht⟩; exact ⟨t, ht.symm⟩

theorem TrimSuffix_slash_of_suffix (s : String) (l : List Char) (h : s.toList = l ++ ['/']) :
    (TrimSuffix s "/").toList = l := by
  unfold TrimSuffix
  have hs : HasSuffix s "/" = true := (HasSuffix_slash s).mpr ⟨l, h⟩
  simp only [hs, if_true, h]
  simp [String.toList]

/-- C16 (counterexample): the flag "http://localhost:3000//" gives the base
address "http://localhost:3000/", which ends with '/'. -/
theorem normalizedHostname_double_slash :
    normalizedHostname "http://localhost:3000//" none "" = "http://localhost:3000/"
    ∧ HasSuffix (normalizedHostname "http://localhost:3000//" none "") "/" = true := by
  decide

/-- C16 (amended): the base address is the hostname chosen with one trailing
'/' removed, when it has one.  It does not end with '/' when the hostname does
not end with "//", and still ends with '/' when the hostname ends with "//". -/
theorem normalizedHostname_spec (loginHostname : String) (cfg : Option Config)
    (prompted : String) :
    (HasSuffix (chosenHostname loginHostname cfg prompted) "/" = true →
        chosenHostname loginHostname cfg prompted
          = normalizedHostname loginHostname cfg prompted ++ "/")
    ∧ (HasSuffix (chosenHostname loginHostname cfg prompted) "/" = false →
        normalizedHostname loginHostname cfg prompted = chosenHostname loginHostname cfg prompted)
    ∧ (HasSuffix (chosenHostname loginHostname cfg prompted) "//" = false →
        HasSuffix (normalizedHostname loginHostname cfg prompted) "/" = false)
    ∧ (HasSuffix (chosenHostname loginHostname cfg prompted) "//" = true →
        HasSuffix (normalizedHostname loginHostname cfg prompted) "/" = true) := by
  unfold normalizedHostname
  generalize chosenHostname loginHostname cfg prompted = h
  refine ⟨fun hs => ?_, fun hs => by simp [TrimSuffix, hs], fun hs => ?_, fun hs => ?_⟩
  · obtain ⟨l, hl⟩ := (HasSuffix_slash h).mp hs
    have ht := TrimSuffix_slash_of_suffix h l hl
    apply String.ext
    simp only [String.toList] at ht hl
    rw [String.data_append, ht, hl]
  · cases hsl : HasSuffix h "/" with
    | false => simp [TrimSuffix, hsl]
    | true =>
      obtain ⟨l, hl⟩ := (HasSuffix_slash h).mp hsl
      rw [← Bool.not_eq_true] at hs ⊢
      intro hb
      obtain ⟨l', hl'⟩ := (HasSuffix_slash _).mp hb
      rw [TrimSuffix_slash_of_suffix h l hl] at hl'
      apply hs
      unfold HasSuffix
      rw [List.isSuffixOf_iff_suffix]
      exact ⟨l', by rw [hl, hl']; simp [String.toList]⟩
  · unfold HasSuffix at hs
    rw [List.isSuffixOf_iff_suffix] at hs
    obtain ⟨t, ht⟩ := hs
    have hl : h.toList = (t ++ ['/']) ++ ['/'] := by rw [← ht]; simp [String.toList]
    rw [HasSuffix_slash]
    exact ⟨t, TrimSuffix_slash_of_suffix h _ hl⟩

/-- Witness of C16 (amended): the hostname of the config file, with one
trailing '/'. -/
theorem normalizedHostname_spec_witness :
    HasSuffix (chosenHostname "" (some ⟨⟨"http://localhost:3000/", ""⟩⟩) "") "//" = false
    ∧ HasSuffix (normalizedHostname "" (some ⟨⟨"http://localhost:3000/", ""⟩⟩) "") "/" = false :=
  ⟨by decide,
    (normalizedHostname_spec "" (some ⟨⟨"http://localhost:3000/", ""⟩⟩) "").2.2.1 (by decide)⟩

/-- C18: what `runLogin` shows and opens between the device-code response and
the polling is fixed by `UserCode`, `VerificationURI` and
`VerificationURIComplete` alone (with the flag `--no-browser` and the outcome of
opening the browser): two responses that differ only in `DeviceCode` give the
same calls, with the same texts and the same URL. -/
theorem showInstructions_independent_of_DeviceCode (d : Auth.DeviceCodeResponse)
    (loginNoBrowser : Bool) (openErr : String → Option String) :
    (∀ deviceCode : String,
        showInstructions { d with DeviceCode := deviceCode } loginNoBrowser openErr
          = showInstructions d loginNoBrowser openErr)
    ∧ (∀ deviceCode expiresIn interval,
        showInstructions ⟨deviceCode, d.UserCode, d.VerificationURI, d.VerificationURIComplete,
            expiresIn, interval⟩ loginNoBrowser openErr
          = showInstructions d loginNoBrowser openErr) :=
  ⟨fun _ => rfl, fun _ _ _ => rfl⟩

end Cmd

namespace GoService

open Auth (Json GoError storeString unmarshalTypeError)

/-! ## Theorems on `Audience.UnmarshalJSON` -/

theorem storeStrings_strs (xs : List String) : storeStrings (xs.map Json.str) = .ok xs := by
  induction xs with
  | nil => rfl
  | cons x xs ih => simp [storeStrings, storeString, ih]

theorem storeStrings_str_or_null (items : List Json)
    (h : ∀ v ∈ items, isStr v = true ∨ isNull v = true) :
    storeStrings items = .ok (items.map elementString) := by
  induction items with
  | nil => rfl
  | cons v rest ih =>
    have hrest := ih fun w hw => h w (List.mem_cons_of_mem _ hw)
    rcases h v (List.mem_cons_self _ _) with hv | hv
    · cases v <;> simp [isStr] at hv
      simp [storeStrings, storeString, hrest, elementString]
    · cases v <;> simp [isNull] at hv
      simp [storeStrings, storeString, hrest, elementString]

theorem storeStrings_error (items : List Json)
    (h : ∃ v ∈ items, isStr v = false ∧ isNull v = false) :
    ∃ err, storeStrings items = .error err := by
  induction items with
  | nil => obtain ⟨v, hv, _⟩ := h; cases hv
  | cons w rest ih =>
    obtain ⟨v, hv, hs, hn⟩ := h
    cases hw : storeString "" w with
    | error e => exact ⟨e, by simp [storeStrings, hw]⟩
    | ok s =>
      have hv' : v ∈ rest := by
        rcases List.mem_cons.mp hv with rfl | hmem
        · cases v <;> simp [isStr, isNull, storeString] at hs hn hw
        · exact hmem
      obtain ⟨e, he⟩ := ih ⟨v, hv', hs, hn⟩
      exact ⟨e, by simp [storeStrings, hw, he]⟩

/-- C19 (counterexample): the JSON value `null` and the array `[null]` are
neither a string nor an array of strings, and `UnmarshalJSON` returns no error
for them: the audience becomes the list of the one empty string. -/
theorem Audience.UnmarshalJSON_null :
    Audience.UnmarshalJSON ["old"] (.ok .null) = ([""], none)
    ∧ Audience.UnmarshalJSON ["old"] (.ok (.arr [.null])) = ([""], none) := by
  decide

/-- C19 (amended): a JSON string s sets the audience to [s]; an array of
strings sets it to those strings in the same order; a number, a boolean, an
object, or an array with an element that is neither a string nor `null` gives an
error and leaves the audience as it was.  The value `null` gives no error and
the audience [""], and in an array a `null` element counts as the empty string. -/
theorem Audience.UnmarshalJSON_spec (a : Audience) :
    (∀ s, Audience.UnmarshalJSON a (.ok (.str s)) = ([s], none))
    ∧ (∀ xs : List String, Audience.UnmarshalJSON a (.ok (.arr (xs.map Json.str))) = (xs, none))
    ∧ (∀ n, ∃ err, Audience.UnmarshalJSON a (.ok (.int n)) = (a, some err))
    ∧ (∀ t, ∃ err, Audience.UnmarshalJSON a (.ok (.real t)) = (a, some err))
    ∧ (∀ b, ∃ err, Audience.UnmarshalJSON a (.ok (.bool b)) = (a, some err))
    ∧ (∀ ms, ∃ err, Audience.UnmarshalJSON a (.ok (.obj ms)) = (a, some err))
    ∧ (∀ items, (∃ v ∈ items, isStr v = false ∧ isNull v = false) →
        ∃ err, Audience.UnmarshalJSON a (.ok (.arr items)) = (a, some err))
    ∧ (∀ msg, ∃ err, Audience.UnmarshalJSON a (.error msg) = (a, some err))
    ∧ Audience.UnmarshalJSON a (.ok .null) = ([""], none)
    ∧ (∀ items, (∀ v ∈ items, isStr v = true ∨ isNull v = true) →
        Audience.UnmarshalJSON a (.ok (.arr items)) = (items.map elementString, none)) := by
  refine ⟨fun s => rfl, fun xs => ?_, fun n => ⟨_, rfl⟩, fun t => ⟨_, rfl⟩, fun b => ⟨_, rfl⟩,
    fun ms => ⟨_, rfl⟩, fun items h => ?_, fun msg => ⟨_, rfl⟩, rfl, fun items h => ?_⟩
  · simp [Audience.UnmarshalJSON, unmarshalString, storeString, unmarshalStrings,
      storeStrings_strs]
  · obtain ⟨err, herr⟩ := storeStrings_error items h
    exact ⟨err, by simp [Audience.UnmarshalJSON, unmarshalString, storeString, unmarshalStrings,
      herr]⟩
  · simp [Audience.UnmarshalJSON, unmarshalString, storeString, unmarshalStrings,
      storeStrings_str_or_null items h]

/-- Witness of C19 (amended): the array `["a", 7]` is refused, the audience
stays ["old"]. -/
theorem Audience.UnmarshalJSON_spec_witness :
    ∃ err, Audience.UnmarshalJSON ["old"] (.ok (.arr [.str "a", .int 7])) = (["old"], some err) :=
  (Audience.UnmarshalJSON_spec ["old"]).2.2.2.2.2.2.1 [.str "a", .int 7]
    ⟨.int 7, by simp, rfl, rfl⟩

end GoService

namespace Minimal

/-! ## Theorems on the middleware `Auth` -/

theorem cutFirst_some (sep : Char) :
    ∀ (l before after : List Char), cutFirst sep l = some (before, after) →
      l = before ++ sep :: after ∧ sep ∉ before := by
  intro l
  induction l with
  | nil => intro b a h; simp [cutFirst] at h
  | cons c cs ih =>
    intro b a h
    simp only [cutFirst] at h
    split_ifs at h with hc
    · simp only [Option.some.injEq, Prod.mk.injEq] at h
      obtain ⟨rfl, rfl⟩ := h
      simp [hc]
    · cases hcs : cutFirst sep cs with
      | none => simp [hcs] at h
      | some p =>
        obtain ⟨b', a'⟩ := p
        simp only [hcs, Option.some.injEq, Prod.mk.injEq] at h
        obtain ⟨rfl, rfl⟩ := h
        obtain ⟨h1, h2⟩ := ih b' a' hcs
        refine ⟨by rw [h1]; rfl, ?_⟩
        simp only [List.mem_cons, not_or]
        exact ⟨fun e => hc e.symm, h2⟩

theorem cutFirst_append (sep : Char) (after : List Char) :
    ∀ before : List Char, sep ∉ before →
      cutFirst sep (before ++ sep :: after) = some (before, after) := by
  intro before
  induction before with
  | nil => intro _; simp [cutFirst]
  | cons c cs ih =>
    intro h
    simp only [List.mem_cons, not_or] at h
    have hc : ¬ c = sep := fun e => h.1 e.symm
    simp [cutFirst, hc, ih h.2]

/-- A scheme equal to "bearer" without regard to case has no space in it. -/
theorem no_space_of_bearer (scheme : String) (h : ToLower scheme = "bearer") :
    ' ' ∉ scheme.toList := by
  intro hmem
  have h1 : (' ' : Char).toLower ∈ scheme.toList.map Char.toLower := List.mem_map_of_mem _ hmem
  have h2 : scheme.toList.map Char.toLower = "bearer".toList := by
    have := congrArg String.toList h
    simpa [ToLower, String.toList] using this
  rw [h2] at h1
  revert h1
  decide

/-- C20: the handler calls `next` exactly when the `Authorization` header is a
scheme equal to "bearer" without regard to case, one space, and then exactly
the configured token; in every other case (no header, no space, another scheme,
another token) it returns an error 401 and does not call `next`. -/
theorem Auth_next_iff (token : String) (header : Option String) :
    (Auth token header = .next ↔
        ∃ scheme : String, ToLower scheme = "bearer" ∧ header = some (scheme ++ " " ++ token))
    ∧ (Auth token header ≠ .next → ∃ message, Auth token header = .httpError 401 message) := by
  constructor
  · constructor
    · intro h
      unfold Auth at h
      simp only at h
      split_ifs at h with hempty
      cases hsplit : SplitN2 (header.getD "") with
      | nil => simp [hsplit] at h
      | cons scheme tl =>
        cases tl with
        | nil => simp [hsplit] at h
        | cons rest tl2 =>
          cases tl2 with
          | cons y ys => simp [hsplit] at h
          | nil =>
            simp only [hsplit] at h
            split_ifs at h with hscheme htoken
            simp only [ne_eq, not_not] at hscheme htoken
            -- the header is the two parts around its first space
            unfold SplitN2 at hsplit
            cases hcut : cutFirst ' ' (header.getD "").toList with
            | none =>
              rw [hcut] at hsplit
              simp at hsplit
            | some p =>
              obtain ⟨before, after⟩ := p
              rw [hcut] at hsplit
              simp only [List.cons.injEq, and_true] at hsplit
              obtain ⟨rfl, rfl⟩ := hsplit
              obtain ⟨hl, _⟩ := cutFirst_some ' ' _ _ _ hcut
              refine ⟨⟨before⟩, hscheme, ?_⟩
              cases header with
              | none => simp at hempty
              | some auth =>
                simp only [Option.getD_some] at hl
                congr 1
                apply String.ext
                simp only [String.toList] at hl
                rw [hl, ← htoken]
                simp [String.data_append]
    · rintro ⟨scheme, hscheme, rfl⟩
      have hns := no_space_of_bearer scheme hscheme
      have hcut : cutFirst ' ' (scheme ++ " " ++ token).toList
          = some (scheme.toList, token.toList) := by
        have : (scheme ++ " " ++ token).toList = scheme.toList ++ ' ' :: token.toList := by
          simp [String.toList, String.data_append]
        rw [this]
        exact cutFirst_append ' ' _ _ hns
      have hne : ¬ (scheme ++ " " ++ token = "") := by
        intro he
        have := congrArg String.toList he
        rw [show (scheme ++ " " ++ token).toList = scheme.toList ++ ' ' :: token.toList by
          simp [String.toList, String.data_append]] at this
        simp [String.toList] at this
      have hsplit : SplitN2 (scheme ++ " " ++ token) = [scheme, token] := by
        unfold SplitN2
        rw [hcut]
        rfl
      simp [Auth, hne, hsplit, hscheme]
  · intro h
    unfold Auth at h ⊢
    simp only at h ⊢
    split_ifs with hempty
    · exact ⟨_, rfl⟩
    · rw [if_neg hempty] at h
      cases hsplit : SplitN2 (header.getD "") with
      | nil => exact ⟨_, rfl⟩
      | cons scheme tl =>
        cases tl with
        | nil => exact ⟨_, rfl⟩
        | cons rest tl2 =>
          cases tl2 with
          | cons y ys => exact ⟨_, rfl⟩
          | nil =>
            simp only [hsplit] at h ⊢
            split_ifs at h ⊢ with hscheme htoken
            · exact ⟨_, rfl⟩
            · exact ⟨_, rfl⟩
            · exact absurd rfl h

/-- Witness of C20: the header "BEARER s3cret" for the token "s3cret". -/
theorem Auth_next_iff_witness :
    Auth "s3cret" (some ("BEARER" ++ " " ++ "s3cret")) = .next :=
  (Auth_next_iff "s3cret" (some ("BEARER" ++ " " ++ "s3cret"))).1.mpr ⟨"BEARER", by decide, rfl⟩

end Minimal

namespace Auth

/-! ## Theorems on the range of durations and on tokens -/

/-- When the period of `Reset` is positive, the loop does not panic. -/
theorem pollLoop_no_panic (interval : Int) (hd : 0 < seconds (wrap64 (interval + 5)))
    (evs : List Event) :
    ∀ (st : PollState) (msg : String), (pollLoop interval st evs).result ≠ .panicked msg := by
  have hd' : ¬ seconds (wrap64 (interval + 5)) ≤ 0 := not_le.mpr hd
  induction evs with
  | nil => intro st msg; simp [pollLoop]
  | cons e evs ih =>
    intro st msg
    cases e with
    | ctxDone c => simp [pollLoop]
    | tick x =>
      rcases hrt : requestToken x with ⟨tok, _ | err⟩
      · simp [pollLoop, hrt]
      · cases hdf : err.asDeviceFlowError with
        | none => simp [pollLoop, hrt, hdf]
        | some tokenErr =>
          simp only [pollLoop, hrt, hdf, hd', if_false]
          split_ifs
          all_goals first
            | exact ih _ msg
            | simp

/-- C27 (counterexample): the interval 9223372037 is at least 1 and
`time.Duration(interval) * time.Second` wraps to a negative duration, so
`NewTicker` panics; with 9223372036 the ticker is created and it is the
duration of `Reset`, for `interval+5`, that is negative. -/
theorem seconds_overflow :
    (1 : Int) ≤ 9223372037 ∧ (9223372037 : Int) < 2 ^ 63
    ∧ seconds 9223372037 = -9223372036709551616
    ∧ PollForToken 9223372037 [.tick (errorAnswer "slow_down")]
        = ⟨.panicked "non-positive interval for NewTicker", ⟨-9223372036709551616, 0, []⟩⟩
    ∧ 0 < seconds 9223372036
    ∧ seconds (wrap64 (9223372036 + 5)) = -9223372032709551616
    ∧ (PollForToken 9223372036 [.tick (errorAnswer "slow_down")]).result
        = .panicked "non-positive interval for Ticker.Reset" := by
  decide

/-- C27 (amended): for an interval with 1 ≤ interval and interval + 5 ≤
9223372036, the two durations `PollForToken` computes are the exact products,
both strictly positive, and no run of `PollForToken` panics. -/
theorem PollForToken_no_panic (interval : Int) (h1 : 1 ≤ interval)
    (h2 : interval + 5 ≤ 9223372036) :
    seconds interval = interval * Second ∧ 0 < seconds interval
    ∧ seconds (wrap64 (interval + 5)) = (interval + 5) * Second
    ∧ 0 < seconds (wrap64 (interval + 5))
    ∧ ∀ (events : List Event) (msg : String),
        (PollForToken interval events).result ≠ .panicked msg := by
  have e1 : seconds interval = interval * Second := seconds_of_range interval (by omega) (by omega)
  have e2 : seconds (wrap64 (interval + 5)) = (interval + 5) * Second := by
    rw [wrap64_of_range _ (by omega) (by omega), seconds_of_range _ (by omega) (by omega)]
  have p1 : 0 < seconds interval := by rw [e1]; unfold Second; omega
  have p2 : 0 < seconds (wrap64 (interval + 5)) := by rw [e2]; unfold Second; omega
  refine ⟨e1, p1, e2, p2, fun events msg => ?_⟩
  have hd : ¬ seconds interval ≤ 0 := not_le.mpr p1
  simp only [PollForToken, hd, if_false]
  exact pollLoop_no_panic interval p2 events _ msg

/-- Witness of C27 (amended): the interval 5. -/
theorem PollForToken_no_panic_witness :
    seconds 5 = 5 * Second ∧ 0 < seconds 5
    ∧ seconds (wrap64 (5 + 5)) = (5 + 5) * Second
    ∧ 0 < seconds (wrap64 (5 + 5))
    ∧ ∀ (events : List Event) (msg : String),
        (PollForToken 5 events).result ≠ .panicked msg :=
  PollForToken_no_panic 5 (by decide) (by decide)

/-- C22: `IsExpired` is true exactly when the current instant is strictly after
`ExpiresAt`, and `IsValid` exactly when `AccessToken` is not empty and
`IsExpired` is false; a token with an empty `AccessToken` is never valid and a
valid token is never expired. -/
theorem Token.IsValid_spec (t : Token) (now : Time) :
    (t.IsExpired now = true ↔ t.ExpiresAt.instant < now.instant)
    ∧ (t.IsValid now = true ↔ t.AccessToken ≠ "" ∧ t.IsExpired now = false)
    ∧ (t.AccessToken = "" → t.IsValid now = false)
    ∧ (t.IsValid now = true → t.IsExpired now = false) := by
  refine ⟨by simp [Token.IsExpired, Time.After], ?_, ?_, ?_⟩
  · simp [Token.IsValid]
  · intro h; simp [Token.IsValid, h]
  · intro h
    simp only [Token.IsValid, Bool.and_eq_true, Bool.not_eq_true'] at h
    exact h.2

/-- Witness of C22: a token that expires at instant 100 is valid at its very
instant of expiry and expired one nanosecond later. -/
theorem Token.IsValid_spec_witness :
    (⟨"T1", "", "Bearer", ⟨100⟩⟩ : Token).IsValid ⟨100⟩ = true
    ∧ (⟨"T1", "", "Bearer", ⟨100⟩⟩ : Token).IsExpired ⟨101⟩ = true
    ∧ (⟨"T1", "", "Bearer", ⟨100⟩⟩ : Token).IsExpired ⟨100⟩ = false :=
  ⟨by decide, ((Token.IsValid_spec ⟨"T1", "", "Bearer", ⟨100⟩⟩ ⟨101⟩).1).mpr (by decide),
    (Token.IsValid_spec ⟨"T1", "", "Bearer", ⟨100⟩⟩ ⟨100⟩).2.2.2 (by decide)⟩

end Auth

namespace Config

/-! ## Theorems on `ClearTokens` -/

/-- C21: `ClearTokens` makes both calls of `Delete`, first for the access token
and then for the refresh token, whatever the first returns.  It returns nil
exactly when each of the two errors is nil or `ErrNotFound`; otherwise it
returns the error of the access token when that is a real error, and else the
error of the refresh token. -/
theorem ClearTokens_spec {κ : Type} (K : Keyring κ) (kr : κ) :
    (ClearTokens K kr).1
        = (K.Delete (K.Delete kr keyringService accessTokenKey).1
            keyringService refreshTokenKey).1
    ∧ ((ClearTokens K kr).2 = none ↔
        ((K.Delete kr keyringService accessTokenKey).2 = none
          ∨ (K.Delete kr keyringService accessTokenKey).2 = some .ErrNotFound)
        ∧ ((K.Delete (K.Delete kr keyringService accessTokenKey).1
              keyringService refreshTokenKey).2 = none
          ∨ (K.Delete (K.Delete kr keyringService accessTokenKey).1
              keyringService refreshTokenKey).2 = some .ErrNotFound))
    ∧ (∀ msg, (K.Delete kr keyringService accessTokenKey).2 = some (.other msg) →
        (ClearTokens K kr).2 = some (.other msg))
    ∧ (∀ msg, ((K.Delete kr keyringService accessTokenKey).2 = none
          ∨ (K.Delete kr keyringService accessTokenKey).2 = some .ErrNotFound) →
        (K.Delete (K.Delete kr keyringService accessTokenKey).1
            keyringService refreshTokenKey).2 = some (.other msg) →
        (ClearTokens K kr).2 = some (.other msg)) := by
  unfold ClearTokens
  rcases hA : K.Delete kr keyringService accessTokenKey with ⟨kr1, eA⟩
  rcases hR : K.Delete kr1 keyringService refreshTokenKey with ⟨kr2, eR⟩
  simp only [hR]
  rcases eA with _ | _ | a <;> rcases eR with _ | _ | r <;> simp

end Config

namespace Config

/-- Witness of C21: a keyring that holds the access token only; the refresh
token is reported as not found and `ClearTokens` returns nil. -/
theorem ClearTokens_spec_witness :
    (ClearTokens listKeyring [("go-auth-device-cli", "access_token", "T1")]).2 = none :=
  ((ClearTokens_spec listKeyring [("go-auth-device-cli", "access_token", "T1")]).2.1).mpr
    ⟨Or.inl (by decide), Or.inr (by decide)⟩

end Config

namespace EntAtlas

open Auth (Time)

/-! ## Theorems on the paste service and its handler -/

/-- C23: for a stored paste `p` that is the one paste of its slug: when
`ExpiresAt` is set and lies before the current time, `GetBySlug` returns no
paste and an `ErrPasteExpired` with the slug asked for, and `Get` answers 410;
when `ExpiresAt` is nil or lies after the current time, the paste is returned,
each field of the `PasteOutput` being that field of the stored paste (and `Get`
answers 200 with it).  Whenever the query itself fails, `GetBySlug`
returns that error and `Get` answers 404.  (The handler answers 400 to an empty
slug before any lookup; stored slugs are not empty.) -/
theorem GetBySlug_spec (rows : List Paste) (p : Paste) (now : Time)
    (hrow : rows.filter (fun q => q.Slug = p.Slug) = [p]) :
    (∀ e, p.ExpiresAt = some e → e.instant < now.instant →
        GetBySlug (.ok rows) p.Slug now = (none, some (.pasteExpired ⟨p.Slug⟩))
        ∧ (p.Slug ≠ "" → PasteHandler.Get (.ok rows) p.Slug now = .error 410 "paste has expired"))
    ∧ ((p.ExpiresAt = none ∨ ∃ e, p.ExpiresAt = some e ∧ now.instant < e.instant) →
        GetBySlug (.ok rows) p.Slug now
          = (some { ID := p.ID, Slug := p.Slug, Title := p.Title, Content := p.Content,
                    Language := p.Language, IsPublic := p.IsPublic, ExpiresAt := p.ExpiresAt,
                    CreatedAt := p.CreatedAt }, none)
        ∧ (p.Slug ≠ "" →
            PasteHandler.Get (.ok rows) p.Slug now
              = .paste 200 (some
                  { ID := p.ID, Slug := p.Slug, Title := p.Title, Content := p.Content,
                    Language := p.Language, IsPublic := p.IsPublic, ExpiresAt := p.ExpiresAt,
                    CreatedAt := p.CreatedAt })))
    ∧ (∀ db slug msg, queryOnly db slug = .error msg →
        GetBySlug db slug now = (none, some (.query msg))
        ∧ (slug ≠ "" → PasteHandler.Get db slug now = .error 404 "paste not found")) := by
  have hq : queryOnly (.ok rows) p.Slug = .ok p := by simp [queryOnly, hrow]
  refine ⟨fun e he hlt => ?_, fun h => ?_, fun db slug msg hm => ?_⟩
  · have hg : GetBySlug (.ok rows) p.Slug now = (none, some (.pasteExpired ⟨p.Slug⟩)) := by
      simp [GetBySlug, hq, he, Time.Before, hlt]
    exact ⟨hg, fun hs => by simp [PasteHandler.Get, hs, hg]⟩
  · have hg : GetBySlug (.ok rows) p.Slug now
        = (some { ID := p.ID, Slug := p.Slug, Title := p.Title, Content := p.Content,
                  Language := p.Language, IsPublic := p.IsPublic, ExpiresAt := p.ExpiresAt,
                  CreatedAt := p.CreatedAt }, none) := by
      rcases h with h | ⟨e, he, hlt⟩
      · simp [GetBySlug, hq, h, toPasteOutput]
      · have : ¬ e.instant < now.instant := by omega
        simp [GetBySlug, hq, he, Time.Before, this, toPasteOutput]
    exact ⟨hg, fun hs => by simp [PasteHandler.Get, hs, hg]⟩
  · have hg : GetBySlug db slug now = (none, some (.query msg)) := by simp [GetBySlug, hm]
    exact ⟨hg, fun hs => by simp [PasteHandler.Get, hs, hg]⟩

/-- Witness of C23: in the table `samplePastes`, asked at instant 101, the paste
"aaaaaaaa" (expired at 100) gives `ErrPasteExpired` and 410, and the paste
"bbbbbbbb" (no expiry) comes back field by field with 200. -/
theorem GetBySlug_spec_witness :
    (GetBySlug (.ok samplePastes) "aaaaaaaa" ⟨101⟩ = (none, some (.pasteExpired ⟨"aaaaaaaa"⟩))
      ∧ ("aaaaaaaa" ≠ "" →
          PasteHandler.Get (.ok samplePastes) "aaaaaaaa" ⟨101⟩ = .error 410 "paste has expired"))
    ∧ (GetBySlug (.ok samplePastes) "bbbbbbbb" ⟨101⟩
        = (some { ID := 2, Slug := "bbbbbbbb", Title := "notes", Content := "y",
                  Language := "go", IsPublic := false, ExpiresAt := none,
                  CreatedAt := ⟨7⟩ }, none)
      ∧ ("bbbbbbbb" ≠ "" →
          PasteHandler.Get (.ok samplePastes) "bbbbbbbb" ⟨101⟩
            = .paste 200 (some
                { ID := 2, Slug := "bbbbbbbb", Title := "notes", Content := "y",
                  Language := "go", IsPublic := false, ExpiresAt := none,
                  CreatedAt := ⟨7⟩ }))) :=
  ⟨(GetBySlug_spec samplePastes
      ⟨1, "aaaaaaaa", "", "x", "plaintext", true, some ⟨100⟩, ⟨0⟩⟩ ⟨101⟩ (by decide)).1
      ⟨100⟩ rfl (by decide),
    (GetBySlug_spec samplePastes
      ⟨2, "bbbbbbbb", "notes", "y", "go", false, none, ⟨7⟩⟩ ⟨101⟩ (by decide)).2.1
      (Or.inl rfl)⟩

/-- C25: for every query, the limit that `List` passes to the service lies in
1..100 and the offset is not negative.  The limit is the parsed value of
`limit` when that is an integer in 1..100 and 20 otherwise; the offset is the
parsed value of `offset` when that is a non-negative integer and 0 otherwise. -/
theorem PasteHandler.List_spec (query : Values) :
    1 ≤ (PasteHandler.List query).limit ∧ (PasteHandler.List query).limit ≤ 100
    ∧ 0 ≤ (PasteHandler.List query).offset
    ∧ (∀ p, Atoi (query.Get "limit") = some p → 1 ≤ p → p ≤ 100 →
        (PasteHandler.List query).limit = p)
    ∧ ((¬ ∃ p, Atoi (query.Get "limit") = some p ∧ 1 ≤ p ∧ p ≤ 100) →
        (PasteHandler.List query).limit = 20)
    ∧ (∀ p, Atoi (query.Get "offset") = some p → 0 ≤ p →
        (PasteHandler.List query).offset = p)
    ∧ ((¬ ∃ p, Atoi (query.Get "offset") = some p ∧ 0 ≤ p) →
        (PasteHandler.List query).offset = 0) := by
  have hempty : Atoi "" = none := by decide
  have hl : (PasteHandler.List query).limit
      = match Atoi (query.Get "limit") with
        | some parsed => if parsed > 0 ∧ parsed ≤ 100 then parsed else 20
        | none => 20 := by
    by_cases he : query.Get "limit" = ""
    · simp [PasteHandler.List, he, hempty]
    · simp [PasteHandler.List, he]
  have ho : (PasteHandler.List query).offset
      = match Atoi (query.Get "offset") with
        | some parsed => if parsed ≥ 0 then parsed else 0
        | none => 0 := by
    by_cases he : query.Get "offset" = ""
    · simp [PasteHandler.List, he, hempty]
    · simp [PasteHandler.List, he]
  rw [hl, ho]
  cases Atoi (query.Get "limit") with
  | none =>
    cases Atoi (query.Get "offset") with
    | none => simp
    | some o =>
      by_cases h0 : o ≥ 0
      · simp [h0]
      · simp [h0]
  | some l =>
    cases Atoi (query.Get "offset") with
    | none =>
      by_cases h1 : l > 0 ∧ l ≤ 100
      · simp [h1]; omega
      · simp [h1]; omega
    | some o =>
      by_cases h1 : l > 0 ∧ l ≤ 100 <;> by_cases h0 : o ≥ 0 <;> simp [h1, h0] <;> omega

/-- Witness of C25: the query `limit=50&offset=10` gives (50, 10), and
`limit=500&offset=-1` gives the defaults (20, 0). -/
theorem PasteHandler.List_spec_witness :
    (PasteHandler.List [("limit", "50"), ("offset", "10")]).limit = 50
    ∧ (PasteHandler.List [("limit", "50"), ("offset", "10")]).offset = 10
    ∧ PasteHandler.List [("limit", "500"), ("offset", "-1")] = ⟨20, 0⟩ :=
  ⟨(PasteHandler.List_spec [("limit", "50"), ("offset", "10")]).2.2.2.1 50 (by decide)
      (by decide) (by decide),
    (PasteHandler.List_spec [("limit", "50"), ("offset", "10")]).2.2.2.2.2.1 10 (by decide)
      (by decide),
    by decide⟩

end EntAtlas

namespace EntAtlas

/-! ## Theorems on `generateSlug` -/

theorem encodeChar_mem : ∀ k : Fin 64, encodeChar k.val ∈ encodeURL.toList := by
  decide

theorem encodeChar_mod_mem (n : Nat) : encodeChar (n % 64) ∈ encodeURL.toList :=
  encodeChar_mem ⟨n % 64, Nat.mod_lt _ (by decide)⟩

theorem pad_not_in_alphabet : '=' ∉ encodeURL.toList := by
  decide

/-- The encoding of a list of bytes is a run of characters of the alphabet, at
least as long as the list, followed by the padding. -/
theorem EncodeToString_body : ∀ b : List (Fin 256), ∃ body pad : List Char,
    EncodeToString b = body ++ pad ∧ (∀ c ∈ body, c ∈ encodeURL.toList)
      ∧ b.length ≤ body.length
  | a :: b :: c :: rest => by
    obtain ⟨body, pad, h1, h2, h3⟩ := EncodeToString_body rest
    refine ⟨encodeChar ((a.val * 65536 + b.val * 256 + c.val) / 262144 % 64)
      :: encodeChar ((a.val * 65536 + b.val * 256 + c.val) / 4096 % 64)
      :: encodeChar ((a.val * 65536 + b.val * 256 + c.val) / 64 % 64)
      :: encodeChar ((a.val * 65536 + b.val * 256 + c.val) % 64) :: body, pad, ?_, ?_, ?_⟩
    · simp only [EncodeToString, h1, List.cons_append]
    · intro ch hch
      simp only [List.mem_cons] at hch
      rcases hch with rfl | rfl | rfl | rfl | hch
      · exact encodeChar_mod_mem _
      · exact encodeChar_mod_mem _
      · exact encodeChar_mod_mem _
      · exact encodeChar_mod_mem _
      · exact h2 ch hch
    · simp only [List.length_cons]
      omega
  | [a, b] => by
    refine ⟨[encodeChar ((a.val * 65536 + b.val * 256) / 262144 % 64),
      encodeChar ((a.val * 65536 + b.val * 256) / 4096 % 64),
      encodeChar ((a.val * 65536 + b.val * 256) / 64 % 64)], ['='], rfl, ?_, by simp⟩
    intro ch hch
    simp only [List.mem_cons, List.mem_singleton, List.not_mem_nil, or_false] at hch
    rcases hch with rfl | rfl | rfl <;> exact encodeChar_mod_mem _
  | [a] => by
    refine ⟨[encodeChar (a.val * 65536 / 262144 % 64), encodeChar (a.val * 65536 / 4096 % 64)],
      ['=', '='], rfl, ?_, by simp⟩
    intro ch hch
    simp only [List.mem_cons, List.mem_singleton, List.not_mem_nil, or_false] at hch
    rcases hch with rfl | rfl <;> exact encodeChar_mod_mem _
  | [] => ⟨[], [], rfl, fun _ h => (by cases h), le_refl _⟩

/-- C26: for every length that is not negative and all bytes of the random
source, `generateSlug` returns, without error and without panic, a string of
exactly `length` characters (the slice `[:length]` of the encoding is in
bounds), all of them in the URL-safe base64 alphabet, none of them the padding
character '='. -/
theorem generateSlug_spec (length : Int) (hlen : 0 ≤ length) (bytes : Nat → Fin 256) :
    ∃ slug, generateSlug length (.ok bytes) = .returned slug none
      ∧ (slug.length : Int) = length
      ∧ ∀ c ∈ slug.toList, c ∈ encodeURL.toList ∧ c ≠ '=' := by
  obtain ⟨body, pad, h1, h2, h3⟩ := EncodeToString_body ((List.range length.toNat).map bytes)
  have hb : length.toNat ≤ body.length := by simpa using h3
  have hle : length.toNat ≤ (EncodeToString ((List.range length.toNat).map bytes)).length := by
    rw [h1, List.length_append]; omega
  have hneg : ¬ length < 0 := by omega
  refine ⟨⟨(EncodeToString ((List.range length.toNat).map bytes)).take length.toNat⟩, ?_, ?_, ?_⟩
  · simp [generateSlug, hneg, hle]
  · simp only [String.length, List.length_take]
    omega
  · intro c hc
    have hc' : c ∈ body := by
      have : c ∈ (body ++ pad).take length.toNat := by rw [← h1]; exact hc
      rw [List.take_append_of_le_length hb] at this
      exact List.mem_of_mem_take this
    exact ⟨h2 c hc', fun e => pad_not_in_alphabet (e ▸ h2 c hc')⟩

/-- Witness of C26: the slug of length 8 that `Create` asks for, from the bytes
0, 1, 2, and so on, is "AAECAwQF". -/
theorem generateSlug_spec_witness :
    generateSlug 8 (.ok fun i => Fin.ofNat i) = .returned "AAECAwQF" none
    ∧ ∃ slug, generateSlug 8 (.ok fun i => Fin.ofNat i) = .returned slug none
      ∧ (slug.length : Int) = 8
      ∧ ∀ c ∈ slug.toList, c ∈ encodeURL.toList ∧ c ≠ '=' :=
  ⟨by decide, generateSlug_spec 8 (by decide) fun i => Fin.ofNat i⟩

end EntAtlas

namespace GoService

open Auth (Json GoError storeString storeInt unmarshalStruct keyMatches keyMatches_other
  memberValue storeMembers_absent storeMembers_present)

/-! ## Theorems on `JWTAuth` -/

theorem TokenClaims.setMember_ID (t t' : TokenClaims) (k : String) (v : Json)
    (hk : keyMatches "id" k = false) (h : t.setMember k v = .ok t') : t'.ID = t.ID := by
  unfold TokenClaims.setMember at h
  split_ifs at h with h1 h2 h3 h4 h5 h6 h7
  · rw [hk] at h1; cases h1
  · cases hs : storeString t.Email v <;> simp [hs, Except.map] at h; subst h; rfl
  · cases hs : storeString t.Subject v <;> simp [hs, Except.map] at h; subst h; rfl
  · cases hs : storeString t.Issuer v <;> simp [hs, Except.map] at h; subst h; rfl
  · rcases hu : Audience.UnmarshalJSON t.Audience (.ok v) with ⟨a, _ | e⟩ <;> simp [hu] at h
    subst h; rfl
  · cases hs : storeInt t.ExpiresAt v <;> simp [hs, Except.map] at h; subst h; rfl
  · cases hs : storeInt t.IssuedAt v <;> simp [hs, Except.map] at h; subst h; rfl
  · cases h; rfl

theorem TokenClaims.setMember_Subject (t t' : TokenClaims) (k : String) (v : Json)
    (hk : keyMatches "sub" k = false) (h : t.setMember k v = .ok t') :
    t'.Subject = t.Subject := by
  unfold TokenClaims.setMember at h
  split_ifs at h with h1 h2 h3 h4 h5 h6 h7
  · cases hs : storeString t.ID v <;> simp [hs, Except.map] at h; subst h; rfl
  · cases hs : storeString t.Email v <;> simp [hs, Except.map] at h; subst h; rfl
  · rw [hk] at h3; cases h3
  · cases hs : storeString t.Issuer v <;> simp [hs, Except.map] at h; subst h; rfl
  · rcases hu : Audience.UnmarshalJSON t.Audience (.ok v) with ⟨a, _ | e⟩ <;> simp [hu] at h
    subst h; rfl
  · cases hs : storeInt t.ExpiresAt v <;> simp [hs, Except.map] at h; subst h; rfl
  · cases hs : storeInt t.IssuedAt v <;> simp [hs, Except.map] at h; subst h; rfl
  · cases h; rfl

theorem TokenClaims.setMember_Email (t t' : TokenClaims) (k : String) (v : Json)
    (hk : keyMatches "email" k = false) (h : t.setMember k v = .ok t') :
    t'.Email = t.Email := by
  unfold TokenClaims.setMember at h
  split_ifs at h with h1 h2 h3 h4 h5 h6 h7
  · cases hs : storeString t.ID v <;> simp [hs, Except.map] at h; subst h; rfl
  · rw [hk] at h2; cases h2
  · cases hs : storeString t.Subject v <;> simp [hs, Except.map] at h; subst h; rfl
  · cases hs : storeString t.Issuer v <;> simp [hs, Except.map] at h; subst h; rfl
  · rcases hu : Audience.UnmarshalJSON t.Audience (.ok v) with ⟨a, _ | e⟩ <;> simp [hu] at h
    subst h; rfl
  · cases hs : storeInt t.ExpiresAt v <;> simp [hs, Except.map] at h; subst h; rfl
  · cases hs : storeInt t.IssuedAt v <;> simp [hs, Except.map] at h; subst h; rfl
  · cases h; rfl

theorem TokenClaims.setMember_ID_str (t t' : TokenClaims) (k s : String)
    (hk : keyMatches "id" k = true) (h : t.setMember k (.str s) = .ok t') : t'.ID = s := by
  unfold TokenClaims.setMember at h
  simp only [hk, if_true, storeString, Except.map, Except.ok.injEq] at h
  subst h
  rfl

theorem TokenClaims.setMember_Email_str (t t' : TokenClaims) (k s : String)
    (hk : keyMatches "email" k = true) (h : t.setMember k (.str s) = .ok t') :
    t'.Email = s := by
  unfold TokenClaims.setMember at h
  have e1 := keyMatches_other (b := "id") hk (by decide)
  simp only [e1, hk, if_true, Bool.false_eq_true, if_false, storeString, Except.map,
    Except.ok.injEq] at h
  subst h
  rfl

theorem TokenClaims.setMember_Subject_str (t t' : TokenClaims) (k s : String)
    (hk : keyMatches "sub" k = true) (h : t.setMember k (.str s) = .ok t') :
    t'.Subject = s := by
  unfold TokenClaims.setMember at h
  have e1 := keyMatches_other (b := "id") hk (by decide)
  have e2 := keyMatches_other (b := "email") hk (by decide)
  simp only [e1, e2, hk, if_true, Bool.false_eq_true, if_false, storeString, Except.map,
    Except.ok.injEq] at h
  subst h
  rfl

/-- C24: for a request whose header is "<bearer> <token>", with the caches at
hand, whose token is verified and whose claims decode into `claims`, the handler
calls `next` with the `AuthContext` whose `UserID` is the claim `id` when that
is not empty and the claim `sub` otherwise, and whose `Email` is the claim
`email`.  In terms of the JSON of the token: `claims.ID`, `claims.Subject` and
`claims.Email` are the strings of the members `id`, `sub` and `email`, and the
empty string for a member that is missing. -/
theorem JWTAuth_context (authHeader scheme tokenString : String)
    (verify : String → Verified) (tokenBytes : Json) (claims : TokenClaims)
    (hsplit : Split authHeader = [scheme, tokenString])
    (hscheme : Minimal.ToLower scheme = "bearer")
    (hverify : verify tokenString = .token tokenBytes)
    (hclaims : unmarshalTokenClaims (.ok tokenBytes) = .ok claims) :
    JWTAuth authHeader none none verify
        = .next ⟨if claims.ID ≠ "" then claims.ID else claims.Subject, claims.Email⟩
    ∧ (∀ ms, tokenBytes = .obj ms →
        (∀ s, memberValue "id" ms = some (.str s) → claims.ID = s)
        ∧ (memberValue "id" ms = none → claims.ID = "")
        ∧ (∀ s, memberValue "sub" ms = some (.str s) → claims.Subject = s)
        ∧ (memberValue "sub" ms = none → claims.Subject = "")
        ∧ (∀ s, memberValue "email" ms = some (.str s) → claims.Email = s)
        ∧ (memberValue "email" ms = none → claims.Email = "")) := by
  constructor
  · have hne : ¬ authHeader = "" := by
      intro he
      have h0 : Split "" = [""] := by decide
      rw [he, h0] at hsplit
      simp at hsplit
    unfold JWTAuth
    simp only [hne, if_false, hsplit, hscheme, ne_eq, not_true, hverify, hclaims]
    by_cases hid : claims.ID = "" <;> simp [hid]
  · intro ms hj
    rw [hj] at hclaims
    simp only [unmarshalTokenClaims, unmarshalStruct] at hclaims
    refine ⟨fun s hm => ?_, fun hm => ?_, fun s hm => ?_, fun hm => ?_, fun s hm => ?_,
      fun hm => ?_⟩
    · exact storeMembers_present TokenClaims.setMember (fun a => a.ID) "id" (.str s) s
        (fun a k v a' hk hset => TokenClaims.setMember_ID a a' k v hk hset)
        (fun a k a' hk hset => TokenClaims.setMember_ID_str a a' k s hk hset)
        ms _ claims hm hclaims
    · exact storeMembers_absent TokenClaims.setMember (fun a => a.ID) "id"
        (fun a k v a' hk hset => TokenClaims.setMember_ID a a' k v hk hset)
        ms _ claims hm hclaims
    · exact storeMembers_present TokenClaims.setMember (fun a => a.Subject) "sub" (.str s) s
        (fun a k v a' hk hset => TokenClaims.setMember_Subject a a' k v hk hset)
        (fun a k a' hk hset => TokenClaims.setMember_Subject_str a a' k s hk hset)
        ms _ claims hm hclaims
    · exact storeMembers_absent TokenClaims.setMember (fun a => a.Subject) "sub"
        (fun a k v a' hk hset => TokenClaims.setMember_Subject a a' k v hk hset)
        ms _ claims hm hclaims
    · exact storeMembers_present TokenClaims.setMember (fun a => a.Email) "email" (.str s) s
        (fun a k v a' hk hset => TokenClaims.setMember_Email a a' k v hk hset)
        (fun a k a' hk hset => TokenClaims.setMember_Email_str a a' k s hk hset)
        ms _ claims hm hclaims
    · exact storeMembers_absent TokenClaims.setMember (fun a => a.Email) "email"
        (fun a k v a' hk hset => TokenClaims.setMember_Email a a' k v hk hset)
        ms _ claims hm hclaims

/-- Witness of C24: for a token without the claim `id` the `UserID` is the
subject "user-1"; for the same token with the claim `id` it is that claim,
"u-42"; the `Email` is the claim `email` both times. -/
theorem JWTAuth_context_witness :
    JWTAuth "Bearer abc" none none (fun _ => .token tokenWithoutID)
        = .next ⟨"user-1", "ann@example.com"⟩
    ∧ JWTAuth "BEARER abc" none none (fun _ => .token tokenWithID)
        = .next ⟨"u-42", "ann@example.com"⟩ :=
  ⟨(JWTAuth_context "Bearer abc" "Bearer" "abc" (fun _ => .token tokenWithoutID) tokenWithoutID
      ⟨"", "ann@example.com", "user-1", "", ["api"], 1900000000, 0⟩
      (by decide) (by decide) rfl (by decide)).1,
    (JWTAuth_context "BEARER abc" "BEARER" "abc" (fun _ => .token tokenWithID) tokenWithID
      ⟨"u-42", "ann@example.com", "user-1", "", ["api"], 1900000000, 0⟩
      (by decide) (by decide) rfl (by decide)).1⟩

/-- A claim `sub` written with the long s is decoded into `Subject`, as by
`encoding/json`. -/
theorem unmarshalTokenClaims_folded_member :
    unmarshalTokenClaims (.ok (.obj [("\u017fub", .str "user-1")]))
      = .ok ⟨"", "", "user-1", "", [], 0, 0⟩ := by
  decide

end GoService

namespace Auth

/-! ## The folding of member names, on examples -/

/-- The long s and the Kelvin sign are matched with `s` and `k`, as by
`encoding/json`; another letter outside ASCII is not matched with an ASCII one. -/
theorem keyMatches_unicode :
    keyMatches "access_token" "acce\u017f\u017f_token" = true
    ∧ keyMatches "token_type" "TO\u212aEN_TYPE" = true
    ∧ keyMatches "user_code" "u\u017fer_code" = true
    ∧ keyMatches "error_description" "error_de\u017fcription" = true
    ∧ keyMatches "sub" "\u017fub" = true
    ∧ keyMatches "access_token" "accéss_token" = false := by
  decide

/-- A 200 answer of the token endpoint whose member is written with the long s
is decoded into `AccessToken`. -/
theorem requestToken_folded_member :
    requestToken (.response ⟨200, "", .ok (.obj [("acce\u017f\u017f_token", .str "T1")])⟩)
      = (some ⟨"T1", "", "", 0⟩, none)
    ∧ memberValue "access_token" [("acce\u017f\u017f_token", .str "T1")] = some (.str "T1") := by
  exact ⟨by decide, rfl⟩

end Auth
